import Mathlib

/-!
# The line-delimited lookup server (`server-test.c`)

A shallow embedding of `get_points` and `do_client`, together with the parts
of the C library they call (`fgets`, `memchr`, `strcmp`, `strlen`, `snprintf`,
`write`), and the properties of the request/reply protocol proved about them.

Conventions.
* A byte is a `Nat`; nothing in the modelled code depends on a byte being
  below 256.  The newline is `10`, NUL is `0`.
* A `char` array is a `List Nat`; a pointer into it is an index.
* The read side of the socket is a `FILE`: the bytes stdio has already fetched
  and the results of the `read` calls still to come.
* The write side of the socket is a `Conn`, and the behaviour of the
  underlying `write` system call is a parameter, a `WriteEnv`.
* The automatic variables of `do_client` that live across iterations form a
  `Frame`.  They are not initialised by the C code, so every theorem
  quantifies over their initial contents.
* Loops that need not terminate carry a fuel argument; running out of fuel is
  the result `none`.
* Not modelled: a failing `fdopen` (the process exits before the loop), the
  5 ms `nanosleep` between the two halves of one directive reply, read errors
  (only end of stream makes `fgets` return `NULL`), and the final `fclose`.
-/

namespace A4

/-! ## Constants -/

/-- Modelled from the spec: `record.h`, which defines `NAME_LEN_MAX`, is not
among the sources.  The value is the maximum name length of the protocol: the
table comment "maxes out name length" stands on a name of 29 bytes, and the
test `too_long` sends 29 bytes as the longest legal request. -/
def NAME_LEN_MAX : Nat := 29

/-- The macro `MAX_QUERY`: `#define MAX_QUERY (NAME_LEN_MAX+1)`. -/
def MAX_QUERY : Nat := NAME_LEN_MAX + 1

/-- The macro `MAX_REPLY`: `#define MAX_REPLY 11`. -/
def MAX_REPLY : Nat := 11

/-! ## C strings and the string functions of the C library -/

/-- The bytes of a piece of text, without a terminating NUL. -/
def lit (s : String) : List Nat := s.toList.map Char.toNat

/-- The array a C string literal denotes: its bytes followed by NUL. -/
def cstring (s : String) : List Nat := lit s ++ [0]

/-- The C string that starts at the first byte of a `char` array: the bytes
before the first NUL. -/
def cstr (s : List Nat) : List Nat := s.takeWhile (fun b => b != 0)

/-- The function `strlen`. -/
def strlen (s : List Nat) : Nat := (cstr s).length

/-- The function `strcmp`: the difference of the first two bytes that differ,
`0` when both strings end together.  The end of a list reads as NUL. -/
def strcmp : List Nat → List Nat → Int
  | [], [] => 0
  | [], b :: _ => - (b : Int)
  | a :: _, [] => (a : Int)
  | a :: as, b :: bs =>
    if a = b then (if a = 0 then 0 else strcmp as bs) else (a : Int) - (b : Int)

/-- The function `memchr(s, c, n)`: the index of the first byte equal to `c`
among the first `n` bytes of `s`, `none` for the null pointer. -/
def memchr : List Nat → Nat → Nat → Option Nat
  | _, _, 0 => none
  | [], _, _ + 1 => none
  | b :: bs, c, n + 1 => if b = c then some 0 else (memchr bs c n).map (fun i => i + 1)

/-- Storing `data` at the start of the array `s` (as `memcpy(s, data, len)`
does); the bytes of `s` beyond `data` keep their old contents. -/
def store (s data : List Nat) : List Nat := data ++ s.drop data.length

/-- The decimal numeral of `v`, as `%u` prints it. -/
def utoa (v : Nat) : List Nat := (Nat.toDigits 10 v).map Char.toNat

/-- The call `snprintf(s, size, "%u\n", v)` for an `unsigned` (32-bit) `v`:
at most `size - 1` bytes of the formatted text are stored, then NUL. -/
def snprintf_u (s : List Nat) (size : Nat) (v : Nat) : List Nat :=
  if size = 0 then s
  else store s ((utoa (v % 2 ^ 32) ++ [10]).take (size - 1) ++ [0])

/-! ## The read side: stdio over a stream socket -/

/-- The read side of the connection.  `buf` holds the bytes stdio has fetched
and not yet handed out; `pending` lists what the coming `read` calls on the
socket deliver, in order.  After the last delivery the peer has closed. -/
structure FILE where
  buf : List Nat
  pending : List (List Nat)
deriving DecidableEq

/-- Fetching from the socket when the stdio buffer is empty.  A delivery of no
bytes never wakes `read`; `read` returns 0 only at end of stream. -/
def refill : List (List Nat) → Option (Nat × FILE)
  | [] => none
  | [] :: p => refill p
  | (b :: bs) :: p => some (b, ⟨bs, p⟩)

/-- The function `getc`: the next byte, or `none` at end of stream. -/
def getc (f : FILE) : Option (Nat × FILE) :=
  match f.buf with
  | b :: bs => some (b, ⟨bs, f.pending⟩)
  | [] => refill f.pending

/-- The loop of `fgets`: transfers at most `k` more bytes, stopping after a
newline and at end of stream. -/
def fgets_loop : Nat → FILE → List Nat → List Nat × FILE
  | 0, f, acc => (acc, f)
  | k + 1, f, acc =>
    match getc f with
    | none => (acc, f)
    | some (ch, f') =>
      if ch = 10 then (acc ++ [ch], f') else fgets_loop k f' (acc ++ [ch])

/-- The function `fgets(s, n, f)`: `none` is the null pointer (end of stream
before any byte), otherwise the new contents of `s` and the stream. -/
def fgets (s : List Nat) (n : Nat) (f : FILE) : Option (List Nat × FILE) :=
  if n = 1 then some (store s [0], f)
  else
    match fgets_loop (n - 1) f [] with
    | ([], _) => none
    | (line, f') => some (store s (line ++ [0]), f')

/-- All bytes of the connection that have not been consumed yet. -/
def unread_pending : List (List Nat) → List Nat
  | [] => []
  | a :: p => a ++ unread_pending p

/-- The unread input of the connection. -/
def unread (f : FILE) : List Nat := f.buf ++ unread_pending f.pending

/-! ## The write side -/

/-- The behaviour of the `write` system call on the socket: the return value
of the call number `i` (counted from 0) when asked to send `data`; `-1` is an
error, a value `k ≥ 0` says that the first `k` bytes were accepted. -/
abbrev WriteEnv := Nat → List Nat → Int

/-- The write side of the connection: the bytes the peer has received, in
order, and the number of `write` calls made so far. -/
structure Conn where
  out : List Nat
  calls : Nat
deriving DecidableEq

/-- The call `write(c, data, count)`. -/
def write (w : WriteEnv) (c : Conn) (data : List Nat) (count : Nat) : Int × Conn :=
  let r := w c.calls (data.take count)
  (r, ⟨c.out ++ (data.take count).take r.toNat, c.calls + 1⟩)

/-- A `write` that always accepts everything it is given. -/
def AllOk (w : WriteEnv) : Prop := ∀ i d, w i d = (d.length : Int)

/-! ## The table and `get_points` -/

/-- The type `tuple`.  `name` is the C string held in the `name` array. -/
structure tuple where
  points : Nat
  name : List Nat
deriving DecidableEq

/-- The table `my_records`. -/
def my_records : List tuple :=
  [ ⟨49365, lit "Hermione Granger"⟩,
    ⟨2488897010, lit "Jonathan Edward Peter Chapman"⟩,
    ⟨19129, lit "Victor Frankenstein"⟩,
    ⟨177, lit "Frodo Baggins"⟩,
    ⟨64265, lit "Ada Lovelace"⟩ ]

/-- The loop of `get_points` over the entries not yet visited: the return
value and the contents of `*answer` afterwards. -/
def get_points_loop : List tuple → List Nat → Nat → Int × Nat
  | [], _, answer => (0, answer)
  | t :: ts, name, answer =>
    if strcmp name (t.name ++ [0]) = 0 then (1, t.points)
    else get_points_loop ts name answer

/-- The function `get_points(name, &answer)`. -/
def get_points (name : List Nat) (answer : Nat) : Int × Nat :=
  get_points_loop my_records name answer

/-! ## `do_client` -/

/-- The automatic variables of `do_client` and the two sides of its socket. -/
structure Frame where
  namebuf : List Nat
  replybuf : List Nat
  answer : Nat
  f : FILE
  c : Conn
deriving DecidableEq

/-- The statement that left the `for (;;)` loop of `do_client`. -/
inductive Exit where
  /-- `fgets` returned `NULL` (line 102). -/
  | eof
  /-- `memchr` found no newline, "bad client" (line 107). -/
  | no_newline
  /-- A `write` returned `-1` (lines 115, 120, 124, 146). -/
  | write_failed
  /-- The `break` after the endless reply (line 132). -/
  | vampires
  /-- The directive `Terminator` (line 135). -/
  | terminator
deriving DecidableEq

/-- The 1024 bytes sent over and over for `Age of Vampires`. -/
def vampire_buf : List Nat := (List.replicate (1024 / 16) (lit "3041579826978832")).flatten

/-- The loop `while (write(c, buf, 1024) != -1);`. -/
def vampire_loop : Nat → WriteEnv → Conn → Option Conn
  | 0, _, _ => none
  | k + 1, w, c =>
    let (r, c') := write w c vampire_buf 1024
    if r = -1 then some c' else vampire_loop k w c'

/-- The normal reply (lines 138-146): builds the reply in `replybuf` and
returns it with `replylen`. -/
def normal_reply (s : Frame) : Frame × Nat :=
  let (found, answer) := get_points s.namebuf s.answer
  if found ≠ 0 then
    let replybuf := snprintf_u s.replybuf (MAX_REPLY + 1) answer
    ({ s with answer := answer, replybuf := replybuf }, strlen replybuf)
  else
    ({ s with answer := answer, replybuf := store s.replybuf (lit "none\n") }, 5)

/-- The read step of one iteration (lines 101-108): `fgets`, `memchr`, and the
replacement of the newline by NUL.  `none` is out of the model (no case);
the result is either the exit taken or the frame that goes on to dispatch. -/
def read_step (s : Frame) : Exit × Frame ⊕ Frame :=
  match fgets s.namebuf (MAX_QUERY + 1) s.f with
  | none => .inl (.eof, s)
  | some (nb, f') =>
    match memchr nb 10 MAX_QUERY with
    | none => .inl (.no_newline, { s with namebuf := nb, f := f' })
    | some nl => .inr { s with namebuf := nb.set nl 0, f := f' }

/-- The dispatch of one record (lines 109-147).  The outer `none` is fuel
running out in the endless reply; the inner `none` means the loop goes on. -/
def dispatch (fuel : Nat) (w : WriteEnv) (s : Frame) : Option (Option Exit × Frame) :=
  if strcmp s.namebuf (cstring "Bond, James Bond") = 0 then
    let reply := cstring "3178689\n"
    let len := strlen reply
    let mid := len / 2
    let (r1, c1) := write w s.c reply mid
    if r1 = -1 then some (some .write_failed, { s with c := c1 })
    else
      -- nanosleep: 5 ms, no effect on the data
      let (r2, c2) := write w c1 (reply.drop mid) (len - mid)
      if r2 = -1 then some (some .write_failed, { s with c := c2 })
      else some (none, { s with c := c2 })
  else if strcmp s.namebuf (cstring "Integer Overflow") = 0 then
    let (r, c1) := write w s.c (cstring "18457062978") 11
    if r = -1 then some (some .write_failed, { s with c := c1 })
    else some (none, { s with c := c1 })
  else if strcmp s.namebuf (cstring "Age of Vampires") = 0 then
    match vampire_loop fuel w s.c with
    | none => none
    | some c1 => some (some .vampires, { s with c := c1 })
  else if strcmp s.namebuf (cstring "Terminator") = 0 then
    some (some .terminator, s)
  else
    let (s1, replylen) := normal_reply s
    let (r, c1) := write w s1.c s1.replybuf replylen
    if r = -1 then some (some .write_failed, { s1 with c := c1 })
    else some (none, { s1 with c := c1 })

/-- One iteration of the `for (;;)` loop. -/
def body (fuel : Nat) (w : WriteEnv) (s : Frame) : Option (Option Exit × Frame) :=
  match read_step s with
  | .inl (e, s') => some (some e, s')
  | .inr s' => dispatch fuel w s'

/-- The `for (;;)` loop of `do_client`: `none` when the fuel runs out,
otherwise the exit taken and the frame at that moment. -/
def loop : Nat → WriteEnv → Frame → Option (Exit × Frame)
  | 0, _, _ => none
  | k + 1, w, s =>
    match body k w s with
    | none => none
    | some (some e, s') => some (e, s')
    | some (none, s') => loop k w s'

/-- The function `do_client(c)`: `f` is `fdopen(c, "r")`, nothing has been
written on the new connection, and `namebuf`, `replybuf`, `answer` hold
whatever the stack held. -/
def do_client (fuel : Nat) (w : WriteEnv) (namebuf replybuf : List Nat) (answer : Nat)
    (f : FILE) : Option (Exit × Frame) :=
  loop fuel w ⟨namebuf, replybuf, answer, f, ⟨[], 0⟩⟩

/-- A `write` that accepts every byte. -/
def w_all : WriteEnv := fun _ d => (d.length : Int)

/-! ## The specification side -/

/-- The reply the protocol owes to the ordinary request `r`, in the words of
the specification: the decimal numeral of the points of the entry whose name
is `r` and a newline, or `none` and a newline when there is no such entry. -/
def spec_reply (r : List Nat) : List Nat :=
  match my_records.find? (fun t => decide (t.name = r)) with
  | some t => utoa t.points ++ [10]
  | none => lit "none\n"

/-- The four names `do_client` treats as directives. -/
def directives : List (List Nat) :=
  [lit "Bond, James Bond", lit "Integer Overflow", lit "Age of Vampires", lit "Terminator"]

/-- An ordinary well-formed request: at most `NAME_LEN_MAX` bytes, no newline,
no NUL, not a directive. -/
def Ordinary (r : List Nat) : Prop :=
  r.length ≤ NAME_LEN_MAX ∧ 10 ∉ r ∧ 0 ∉ r ∧ r ∉ directives

instance : DecidablePred Ordinary := fun r => by
  unfold Ordinary; infer_instance

/-- The wire form of a list of requests: each followed by a newline. -/
def wire : List (List Nat) → List Nat
  | [] => []
  | r :: rs => r ++ 10 :: wire rs

/-- The replies owed to a list of ordinary requests, in order. -/
def replies : List (List Nat) → List Nat
  | [] => []
  | r :: rs => spec_reply r ++ replies rs

/-- The bytes `fgets` transfers from an unread input when it may still take
`k`: it stops after a newline, at the end of the input, and after `k` bytes. -/
def fgets_line : Nat → List Nat → List Nat
  | 0, _ => []
  | _ + 1, [] => []
  | k + 1, x :: xs => if x = 10 then [x] else x :: fgets_line k xs

/-- Automatic variables that hold zeros, on a new connection that reads `f`. -/
def frame0 (f : FILE) : Frame :=
  ⟨List.replicate (MAX_QUERY + 1) 0, List.replicate (MAX_REPLY + 1) 0, 0, f, ⟨[], 0⟩⟩

/-- A `write` that accepts one byte of whatever it is given and reports no
error. -/
def w_one : WriteEnv := fun _ _ => 1

/-- Two frames that differ at most in how the unread input is cut into
deliveries. -/
def SameInput (a b : Frame) : Prop :=
  a.namebuf = b.namebuf ∧ a.replybuf = b.replybuf ∧ a.answer = b.answer ∧ a.c = b.c ∧
    unread a.f = unread b.f

/-- What a session shows: the exit taken, the automatic variables, the write
side, and the input left unread. -/
def view (p : Exit × Frame) : Exit × List Nat × List Nat × Nat × Conn × List Nat :=
  (p.1, p.2.namebuf, p.2.replybuf, p.2.answer, p.2.c, unread p.2.f)

/-! ## Lemmas: C strings -/

theorem cstr_append_nul (r t : List Nat) : cstr (r ++ 0 :: t) = cstr r := by
  induction r with
  | nil => simp [cstr]
  | cons a r ih =>
    by_cases h : a = 0
    · subst h; simp [cstr]
    · have h' : (a != 0) = true := by simpa using h
      simp only [cstr, List.cons_append, List.takeWhile_cons, h'] at ih ⊢
      simp [ih]

theorem cstr_of_no_nul (r : List Nat) (h : 0 ∉ r) : cstr r = r := by
  induction r with
  | nil => simp [cstr]
  | cons a r ih =>
    have ha : a ≠ 0 := fun e => h (by simp [e])
    have hr : 0 ∉ r := fun e => h (by simp [e])
    have h' : (a != 0) = true := by simpa using ha
    simp only [cstr, List.takeWhile_cons, h'] at ih ⊢
    simp [ih hr]

theorem cstr_no_nul (s : List Nat) : 0 ∉ cstr s := by
  induction s with
  | nil => simp [cstr]
  | cons a r ih =>
    by_cases h : a = 0
    · subst h; simp [cstr]
    · have h' : (a != 0) = true := by simpa using h
      simp only [cstr, List.takeWhile_cons, h'] at ih ⊢
      simp only [if_true, List.mem_cons, not_or]
      exact ⟨fun e => h e.symm, ih⟩

theorem strcmp_eq_zero_iff (a b : List Nat) : strcmp a b = 0 ↔ cstr a = cstr b := by
  induction a generalizing b with
  | nil =>
    cases b with
    | nil => simp [strcmp]
    | cons y ys =>
      by_cases hy : y = 0
      · subst hy; simp [strcmp, cstr]
      · have h' : (y != 0) = true := by simpa using hy
        simp [strcmp, cstr, List.takeWhile_cons, h', hy]
  | cons x xs ih =>
    cases b with
    | nil =>
      by_cases hx : x = 0
      · subst hx; simp [strcmp, cstr]
      · have h' : (x != 0) = true := by simpa using hx
        simp [strcmp, cstr, List.takeWhile_cons, h', hx]
    | cons y ys =>
      by_cases hxy : x = y
      · subst hxy
        by_cases hx : x = 0
        · subst hx; simp [strcmp, cstr]
        · have h' : (x != 0) = true := by simpa using hx
          have := ih ys
          simp only [cstr] at this
          simp [strcmp, cstr, List.takeWhile_cons, h', hx, this]
      · have hne : (x : Int) - (y : Int) ≠ 0 := by
          intro e
          apply hxy
          have : (x : Int) = (y : Int) := by linarith
          exact_mod_cast this
        simp only [strcmp, hxy, if_false, hne, false_iff]
        intro e
        by_cases hx : x = 0
        · subst hx
          have hy : (y != 0) = true := by
            simpa using (fun e => hxy e.symm : ¬ y = 0)
          simp [cstr, List.takeWhile_cons, hy] at e
        · have h' : (x != 0) = true := by simpa using hx
          by_cases hy : y = 0
          · subst hy; simp [cstr, List.takeWhile_cons, h'] at e
          · have hy' : (y != 0) = true := by simpa using hy
            simp [cstr, List.takeWhile_cons, h', hy'] at e
            exact hxy e.1

/-! ## Lemmas: `memchr` -/

theorem memchr_found (r t : List Nat) (c n : Nat) (hr : c ∉ r) (hn : r.length < n) :
    memchr (r ++ c :: t) c n = some r.length := by
  induction r generalizing n with
  | nil =>
    cases n with
    | zero => omega
    | succ n => simp [memchr]
  | cons a r ih =>
    cases n with
    | zero => omega
    | succ n =>
      have ha : a ≠ c := fun e => hr (by simp [e])
      have hr' : c ∉ r := fun e => hr (by simp [e])
      have hn' : r.length < n := by simpa using hn
      simp [memchr, ha, ih n hr' hn']

theorem memchr_none (s : List Nat) (c n : Nat) (h : c ∉ s.take n) : memchr s c n = none := by
  induction s generalizing n with
  | nil => cases n <;> simp [memchr]
  | cons a r ih =>
    cases n with
    | zero => simp [memchr]
    | succ n =>
      have ha : a ≠ c := fun e => h (by simp [e])
      have hr' : c ∉ r.take n := fun e => h (by simp [e])
      simp [memchr, ha, ih n hr']

theorem memchr_some_of_mem (s : List Nat) (c n : Nat) (h : c ∈ s.take n) :
    ∃ i, memchr s c n = some i := by
  induction s generalizing n with
  | nil => cases n <;> simp at h
  | cons a r ih =>
    cases n with
    | zero => simp at h
    | succ n =>
      by_cases ha : a = c
      · exact ⟨0, by simp [memchr, ha]⟩
      · have hr' : c ∈ r.take n := by
          simp only [List.take_succ_cons, List.mem_cons] at h
          rcases h with h | h
          · exact absurd h.symm ha
          · exact h
        obtain ⟨i, hi⟩ := ih n hr'
        exact ⟨i + 1, by simp [memchr, ha, hi]⟩

/-! ## Lemmas: the read side -/

theorem refill_nil (p : List (List Nat)) (h : unread_pending p = []) : refill p = none := by
  induction p with
  | nil => rfl
  | cons a p ih =>
    cases a with
    | nil => simpa [refill, unread_pending] using ih (by simpa [unread_pending] using h)
    | cons b bs => simp [unread_pending] at h

theorem refill_cons (p : List (List Nat)) (x : Nat) (xs : List Nat)
    (h : unread_pending p = x :: xs) :
    ∃ f', refill p = some (x, f') ∧ unread f' = xs := by
  induction p with
  | nil => simp [unread_pending] at h
  | cons a p ih =>
    cases a with
    | nil => simpa [refill, unread_pending] using ih (by simpa [unread_pending] using h)
    | cons b bs =>
      simp only [unread_pending, List.cons_append, List.cons.injEq] at h
      exact ⟨⟨bs, p⟩, by simp [refill, h.1], by simp [unread, h.2]⟩

theorem getc_nil (f : FILE) (h : unread f = []) : getc f = none := by
  obtain ⟨buf, p⟩ := f
  simp only [unread, List.append_eq_nil] at h
  obtain ⟨hb, hp⟩ := h
  subst hb
  simpa [getc] using refill_nil p hp

theorem getc_cons (f : FILE) (x : Nat) (xs : List Nat) (h : unread f = x :: xs) :
    ∃ f', getc f = some (x, f') ∧ unread f' = xs := by
  obtain ⟨buf, p⟩ := f
  cases buf with
  | nil => simpa [getc] using refill_cons p x xs (by simpa [unread] using h)
  | cons b bs =>
    simp only [unread, List.cons_append, List.cons.injEq] at h
    exact ⟨⟨bs, p⟩, by simp [getc, h.1], by simp [unread, h.2]⟩

theorem fgets_loop_unread (k : Nat) (f : FILE) (acc : List Nat) :
    (fgets_loop k f acc).1 = acc ++ fgets_line k (unread f) ∧
    unread (fgets_loop k f acc).2 = (unread f).drop (fgets_line k (unread f)).length := by
  induction k generalizing f acc with
  | zero => simp [fgets_loop, fgets_line]
  | succ k ih =>
    cases hu : unread f with
    | nil => simp [fgets_loop, getc_nil f hu, fgets_line, hu]
    | cons x xs =>
      obtain ⟨f', hg, hf'⟩ := getc_cons f x xs hu
      by_cases hx : x = 10
      · simp [fgets_loop, hg, fgets_line, hx, hf']
      · have := ih f' (acc ++ [x])
        simp [fgets_loop, hg, fgets_line, hx, this.1, this.2, hf']

theorem fgets_line_terminated (k : Nat) (r later : List Nat) (h10 : 10 ∉ r) (hk : r.length < k) :
    fgets_line k (r ++ 10 :: later) = r ++ [10] := by
  induction r generalizing k with
  | nil =>
    cases k with
    | zero => omega
    | succ k => simp [fgets_line]
  | cons a r ih =>
    cases k with
    | zero => omega
    | succ k =>
      have ha : a ≠ 10 := fun e => h10 (by simp [e])
      have hr : 10 ∉ r := fun e => h10 (by simp [e])
      simp [fgets_line, ha, ih k hr (by simpa using hk)]

theorem fgets_line_full (r later : List Nat) (h10 : 10 ∉ r) :
    fgets_line r.length (r ++ later) = r := by
  induction r with
  | nil => simp [fgets_line]
  | cons a r ih =>
    have ha : a ≠ 10 := fun e => h10 (by simp [e])
    have hr : 10 ∉ r := fun e => h10 (by simp [e])
    simp [fgets_line, ha, ih hr]

theorem fgets_line_cut (k : Nat) (r : List Nat) (h10 : 10 ∉ r) (hk : r.length ≤ k) :
    fgets_line k r = r := by
  induction r generalizing k with
  | nil => cases k <;> simp [fgets_line]
  | cons a r ih =>
    cases k with
    | zero => simp at hk
    | succ k =>
      have ha : a ≠ 10 := fun e => h10 (by simp [e])
      have hr : 10 ∉ r := fun e => h10 (by simp [e])
      simp [fgets_line, ha, ih k hr (by simpa using hk)]

/-- What `fgets(namebuf, MAX_QUERY+1, f)` does, in terms of the unread input. -/
theorem fgets_unread (s : List Nat) (f : FILE) :
    (fgets_line MAX_QUERY (unread f) = [] → fgets s (MAX_QUERY + 1) f = none) ∧
    (fgets_line MAX_QUERY (unread f) ≠ [] →
      ∃ f', fgets s (MAX_QUERY + 1) f
          = some (store s (fgets_line MAX_QUERY (unread f) ++ [0]), f') ∧
        unread f' = (unread f).drop (fgets_line MAX_QUERY (unread f)).length) := by
  have h := fgets_loop_unread MAX_QUERY f []
  have hn : ¬ (MAX_QUERY + 1 = 1) := by decide
  simp only [List.nil_append] at h
  constructor
  · intro he
    simp only [fgets, hn, if_false, Nat.add_sub_cancel]
    rcases hl : fgets_loop MAX_QUERY f [] with ⟨line, f'⟩
    rw [hl] at h
    simp only at h
    rw [he] at h
    simp [h.1]
  · intro hne
    simp only [fgets, hn, if_false, Nat.add_sub_cancel]
    rcases hl : fgets_loop MAX_QUERY f [] with ⟨line, f'⟩
    rw [hl] at h
    simp only at h
    refine ⟨f', ?_, h.2⟩
    rw [← h.1] at hne ⊢
    cases line with
    | nil => exact absurd rfl hne
    | cons a l => rfl

/-! ## Lemmas: the read step of `do_client` -/

theorem set_append_cons (r t : List Nat) (a b : Nat) :
    (r ++ a :: t).set r.length b = r ++ b :: t := by
  induction r with
  | nil => rfl
  | cons x r ih => simp [ih]

/-- At end of stream `fgets` returns `NULL` and the loop is left. -/
theorem read_step_eof (s : Frame) (h : unread s.f = []) : read_step s = .inl (.eof, s) := by
  have := (fgets_unread s.namebuf s.f).1 (by rw [h]; rfl)
  simp [read_step, this]

/-- A complete line of at most `NAME_LEN_MAX` bytes is taken whole and its
newline replaced by NUL. -/
theorem read_step_line (s : Frame) (r later : List Nat) (h10 : 10 ∉ r)
    (hlen : r.length ≤ NAME_LEN_MAX) (h : unread s.f = r ++ 10 :: later) :
    ∃ f', unread f' = later ∧
      read_step s = .inr { s with
        namebuf := r ++ 0 :: 0 :: s.namebuf.drop (r.length + 2), f := f' } := by
  have hk : r.length < MAX_QUERY := by simp only [MAX_QUERY]; omega
  have hl : fgets_line MAX_QUERY (unread s.f) = r ++ [10] := by
    rw [h]; exact fgets_line_terminated MAX_QUERY r later h10 hk
  obtain ⟨f', hf, hu⟩ := (fgets_unread s.namebuf s.f).2 (by rw [hl]; simp)
  rw [hl] at hf hu
  refine ⟨f', ?_, ?_⟩
  · rw [hu, h]; simp
  · have hst : store s.namebuf (r ++ [10] ++ [0])
        = r ++ 10 :: 0 :: s.namebuf.drop (r.length + 2) := by
      simp [store]
    rw [hst] at hf
    simp only [read_step, hf, memchr_found r _ 10 MAX_QUERY h10 hk, set_append_cons]

/-- `MAX_QUERY` bytes without a newline: `fgets` stops at its limit, `memchr`
finds nothing, and the loop is left. -/
theorem read_step_long (s : Frame) (r later : List Nat) (h10 : 10 ∉ r)
    (hlen : r.length = MAX_QUERY) (h : unread s.f = r ++ later) :
    ∃ f', unread f' = later ∧
      read_step s = .inl (.no_newline, { s with
        namebuf := r ++ 0 :: s.namebuf.drop (MAX_QUERY + 1), f := f' }) := by
  have hl : fgets_line MAX_QUERY (unread s.f) = r := by
    rw [h, ← hlen]; exact fgets_line_full r later h10
  have hne : r ≠ [] := by
    intro e; rw [e] at hlen; simp [MAX_QUERY, NAME_LEN_MAX] at hlen
  obtain ⟨f', hf, hu⟩ := (fgets_unread s.namebuf s.f).2 (by rw [hl]; exact hne)
  rw [hl] at hf hu
  refine ⟨f', ?_, ?_⟩
  · rw [hu, h]; simp
  · have hst : store s.namebuf (r ++ [0]) = r ++ 0 :: s.namebuf.drop (MAX_QUERY + 1) := by
      simp [store, hlen]
    rw [hst] at hf
    have hm : memchr (r ++ 0 :: s.namebuf.drop (MAX_QUERY + 1)) 10 MAX_QUERY = none := by
      apply memchr_none
      rw [← hlen]
      simpa using h10
    simp only [read_step, hf, hm]

/-- A last line cut off by end of stream: `fgets` stores it, and what
`memchr` then sees beyond it is what `namebuf` held before. -/
theorem read_step_tail (s : Frame) (t : List Nat) (h10 : 10 ∉ t) (hne : t ≠ [])
    (hlen : t.length < MAX_QUERY) (h : unread s.f = t) :
    ∃ f', unread f' = [] ∧
      fgets s.namebuf (MAX_QUERY + 1) s.f
        = some (t ++ 0 :: s.namebuf.drop (t.length + 1), f') := by
  have hl : fgets_line MAX_QUERY (unread s.f) = t := by
    rw [h]; exact fgets_line_cut MAX_QUERY t h10 (Nat.le_of_lt hlen)
  obtain ⟨f', hf, hu⟩ := (fgets_unread s.namebuf s.f).2 (by rw [hl]; exact hne)
  rw [hl] at hf hu
  refine ⟨f', ?_, ?_⟩
  · rw [hu, h]; simp
  · rw [hf]; simp [store]

/-! ## Lemmas: decimal numerals and `snprintf` -/

theorem digitChar_range (k : Nat) (hk : k < 10) :
    48 ≤ (Nat.digitChar k).toNat ∧ (Nat.digitChar k).toNat ≤ 57 := by
  interval_cases k <;> decide

theorem toDigitsCore_range (fuel n : Nat) (ds : List Char)
    (hds : ∀ ch ∈ ds, 48 ≤ ch.toNat ∧ ch.toNat ≤ 57) :
    ∀ ch ∈ Nat.toDigitsCore 10 fuel n ds, 48 ≤ ch.toNat ∧ ch.toNat ≤ 57 := by
  induction fuel generalizing n ds with
  | zero => simpa [Nat.toDigitsCore] using hds
  | succ fuel ih =>
    have hd := digitChar_range (n % 10) (Nat.mod_lt _ (by decide))
    have hcons : ∀ ch ∈ Nat.digitChar (n % 10) :: ds, 48 ≤ ch.toNat ∧ ch.toNat ≤ 57 := by
      intro ch hch
      rcases List.mem_cons.1 hch with e | e
      · rw [e]; exact hd
      · exact hds ch e
    simp only [Nat.toDigitsCore]
    split
    · exact hcons
    · exact ih _ _ hcons

/-- Every byte of a decimal numeral is a digit. -/
theorem utoa_range (v : Nat) : ∀ d ∈ utoa v, 48 ≤ d ∧ d ≤ 57 := by
  intro d hd
  simp only [utoa, List.mem_map] at hd
  obtain ⟨ch, hch, rfl⟩ := hd
  exact toDigitsCore_range _ _ [] (by simp) ch hch

theorem utoa_no_nul (v : Nat) : 0 ∉ utoa v := fun h => by
  have := utoa_range v 0 h; omega

theorem utoa_no_newline (v : Nat) : 10 ∉ utoa v := fun h => by
  have := utoa_range v 10 h; omega

/-- An unsigned 32-bit value has at most 10 decimal digits. -/
theorem utoa_length (v : Nat) (hv : v < 2 ^ 32) : (utoa v).length ≤ 10 := by
  simp only [utoa, List.length_map, Nat.toDigits]
  exact Nat.toDigitsCore_length 10 (by decide) (v + 1) v 10
    (lt_of_lt_of_le hv (by norm_num)) (by decide)

/-- The call `snprintf(replybuf, MAX_REPLY+1, "%u\n", v)` stores the whole
numeral, the newline and NUL: nothing is cut. -/
theorem snprintf_u_full (s : List Nat) (v : Nat) (hv : v < 2 ^ 32) :
    snprintf_u s (MAX_REPLY + 1) v = utoa v ++ 10 :: 0 :: s.drop ((utoa v).length + 2) := by
  have hl := utoa_length v hv
  have hmod : v % 2 ^ 32 = v := Nat.mod_eq_of_lt hv
  have hn : ¬ (MAX_REPLY + 1 = 0) := by decide
  have htake : (utoa v ++ [10]).take (MAX_REPLY + 1 - 1) = utoa v ++ [10] := by
    apply List.take_of_length_le
    simp [MAX_REPLY]; omega
  simp only [snprintf_u, hn, if_false, hmod, htake]
  simp [store]

theorem strlen_numeral (v : Nat) (t : List Nat) :
    strlen (utoa v ++ 10 :: 0 :: t) = (utoa v).length + 1 := by
  have h : utoa v ++ 10 :: 0 :: t = (utoa v ++ [10]) ++ 0 :: t := by simp
  have h0 : 0 ∉ utoa v ++ [10] := by
    simp only [List.mem_append, List.mem_singleton, not_or]
    exact ⟨utoa_no_nul v, by decide⟩
  rw [strlen, h, cstr_append_nul, cstr_of_no_nul _ h0]
  simp

/-! ## Lemmas: `get_points` -/

theorem cstr_name (name : List Nat) (h : 0 ∉ name) : cstr (name ++ [0]) = name := by
  rw [cstr_append_nul, cstr_of_no_nul _ h]

theorem get_points_loop_find (ts : List tuple) (name : List Nat) (answer : Nat)
    (h0 : ∀ t ∈ ts, 0 ∉ t.name) :
    get_points_loop ts name answer
      = match ts.find? (fun t => decide (t.name = cstr name)) with
        | some t => (1, t.points)
        | none => (0, answer) := by
  induction ts with
  | nil => rfl
  | cons t ts ih =>
    have ht : 0 ∉ t.name := h0 t (by simp)
    have hts : ∀ t ∈ ts, 0 ∉ t.name := fun u hu => h0 u (by simp [hu])
    by_cases he : t.name = cstr name
    · have : strcmp name (t.name ++ [0]) = 0 := by
        rw [strcmp_eq_zero_iff, cstr_name _ ht, he]
      simp only [get_points_loop, this, if_true]
      simp [List.find?, he]
    · have : ¬ strcmp name (t.name ++ [0]) = 0 := by
        rw [strcmp_eq_zero_iff, cstr_name _ ht]; exact fun e => he e.symm
      simp only [get_points_loop, this, if_false, ih hts]
      simp [List.find?, he]

theorem my_records_no_nul : ∀ t ∈ my_records, 0 ∉ t.name := by decide

theorem my_records_points : ∀ t ∈ my_records, t.points < 2 ^ 32 := by decide

/-- The normal reply leaves in `replybuf`, on its first `replylen` bytes, the
reply the specification owes to the C string in `namebuf`. -/
theorem normal_reply_spec (s : Frame) :
    (normal_reply s).1.namebuf = s.namebuf ∧ (normal_reply s).1.f = s.f ∧
    (normal_reply s).1.c = s.c ∧
    (normal_reply s).1.replybuf.take (normal_reply s).2 = spec_reply (cstr s.namebuf) := by
  have hg := get_points_loop_find my_records s.namebuf s.answer my_records_no_nul
  cases hf : my_records.find? (fun t => decide (t.name = cstr s.namebuf)) with
  | none =>
    rw [hf] at hg
    simp only [normal_reply, get_points, hg, spec_reply, hf]
    refine ⟨rfl, rfl, rfl, ?_⟩
    have h5 : (lit "none\n").length = 5 := by decide
    simp [store, ← h5]
  | some t =>
    rw [hf] at hg
    have hmem : t ∈ my_records := List.mem_of_find?_eq_some hf
    have hv := my_records_points t hmem
    simp only [normal_reply, get_points, hg, spec_reply, hf]
    refine ⟨rfl, rfl, rfl, ?_⟩
    simp only [ne_eq, one_ne_zero, not_false_eq_true, if_true]
    rw [snprintf_u_full _ _ hv, strlen_numeral]
    have h : utoa t.points ++ 10 :: 0 :: List.drop ((utoa t.points).length + 2) s.replybuf
        = (utoa t.points ++ [10]) ++ 0 :: List.drop ((utoa t.points).length + 2) s.replybuf := by
      simp
    rw [h]
    have hl : (utoa t.points).length + 1 = (utoa t.points ++ [10]).length := by simp
    rw [hl, List.take_left]

/-! ## Lemmas: dispatch -/

theorem strcmp_cstring (a : List Nat) (x : String) (h0 : 0 ∉ lit x) :
    strcmp a (cstring x) = 0 ↔ cstr a = lit x := by
  rw [strcmp_eq_zero_iff, cstring, cstr_name _ h0]

theorem strcmp_bond (a : List Nat) :
    strcmp a (cstring "Bond, James Bond") = 0 ↔ cstr a = lit "Bond, James Bond" :=
  strcmp_cstring a _ (by decide)

theorem strcmp_overflow (a : List Nat) :
    strcmp a (cstring "Integer Overflow") = 0 ↔ cstr a = lit "Integer Overflow" :=
  strcmp_cstring a _ (by decide)

theorem strcmp_vampires (a : List Nat) :
    strcmp a (cstring "Age of Vampires") = 0 ↔ cstr a = lit "Age of Vampires" :=
  strcmp_cstring a _ (by decide)

theorem strcmp_terminator (a : List Nat) :
    strcmp a (cstring "Terminator") = 0 ↔ cstr a = lit "Terminator" :=
  strcmp_cstring a _ (by decide)

/-- Dispatch reads `namebuf` only through its C string. -/
theorem dispatch_cstr (fuel : Nat) (w : WriteEnv) (s : Frame) (hd : cstr s.namebuf ∉ directives) :
    ∃ s', s'.namebuf = s.namebuf ∧ s'.f = s.f ∧
      s'.c = ⟨s.c.out ++ (spec_reply (cstr s.namebuf)).take
                (w s.c.calls (spec_reply (cstr s.namebuf))).toNat, s.c.calls + 1⟩ ∧
      dispatch fuel w s
        = some (if w s.c.calls (spec_reply (cstr s.namebuf)) = -1
                then some Exit.write_failed else none, s') := by
  simp only [directives, List.mem_cons, List.mem_singleton, List.not_mem_nil, or_false,
    not_or] at hd
  obtain ⟨h1, h2, h3, h4⟩ := hd
  have e1 : ¬ strcmp s.namebuf (cstring "Bond, James Bond") = 0 := by
    rw [strcmp_bond]; exact h1
  have e2 : ¬ strcmp s.namebuf (cstring "Integer Overflow") = 0 := by
    rw [strcmp_overflow]; exact h2
  have e3 : ¬ strcmp s.namebuf (cstring "Age of Vampires") = 0 := by
    rw [strcmp_vampires]; exact h3
  have e4 : ¬ strcmp s.namebuf (cstring "Terminator") = 0 := by
    rw [strcmp_terminator]; exact h4
  obtain ⟨hn, hf, hc, hr⟩ := normal_reply_spec s
  refine ⟨{ (normal_reply s).1 with
      c := ⟨s.c.out ++ (spec_reply (cstr s.namebuf)).take
              (w s.c.calls (spec_reply (cstr s.namebuf))).toNat, s.c.calls + 1⟩ },
    hn, hf, rfl, ?_⟩
  simp only [dispatch, e1, e2, e3, e4, if_false, write, hr, hc]
  split <;> rfl

/-- The directive `Terminator`: no `write` call, the loop is left. -/
theorem dispatch_terminator (fuel : Nat) (w : WriteEnv) (s : Frame)
    (h : cstr s.namebuf = lit "Terminator") :
    dispatch fuel w s = some (some .terminator, s) := by
  have e1 : ¬ strcmp s.namebuf (cstring "Bond, James Bond") = 0 := by
    rw [strcmp_bond, h]; decide
  have e2 : ¬ strcmp s.namebuf (cstring "Integer Overflow") = 0 := by
    rw [strcmp_overflow, h]; decide
  have e3 : ¬ strcmp s.namebuf (cstring "Age of Vampires") = 0 := by
    rw [strcmp_vampires, h]; decide
  have e4 : strcmp s.namebuf (cstring "Terminator") = 0 := by
    rw [strcmp_terminator]; exact h
  simp only [dispatch, e1, e2, e3, e4, if_false, if_true]

/-- Two frames whose `namebuf` hold the same C string are dispatched alike,
provided they agree on everything else. -/
theorem dispatch_congr (fuel : Nat) (w : WriteEnv) (s : Frame) (nb : List Nat)
    (h : cstr nb = cstr s.namebuf) :
    (dispatch fuel w { s with namebuf := nb }).map (fun p => (p.1, p.2.c, p.2.f))
      = (dispatch fuel w s).map (fun p => (p.1, p.2.c, p.2.f)) := by
  have hs : ∀ x, strcmp nb x = 0 ↔ strcmp s.namebuf x = 0 := by
    intro x; rw [strcmp_eq_zero_iff, strcmp_eq_zero_iff, h]
  have hg : ∀ ts ans, get_points_loop ts nb ans = get_points_loop ts s.namebuf ans := by
    intro ts ans
    induction ts with
    | nil => rfl
    | cons t ts ih =>
      simp only [get_points_loop, ih]
      by_cases e : strcmp s.namebuf (t.name ++ [0]) = 0
      · simp [e, (hs _).2 e]
      · have e' : ¬ strcmp nb (t.name ++ [0]) = 0 := fun x => e ((hs _).1 x)
        simp [e, e']
  by_cases e1 : strcmp s.namebuf (cstring "Bond, James Bond") = 0
  · have e1' := (hs _).2 e1
    simp only [dispatch, e1, e1', if_true, write]
    split <;> [rfl; (split <;> rfl)]
  · have e1' : ¬ strcmp nb (cstring "Bond, James Bond") = 0 := fun x => e1 ((hs _).1 x)
    by_cases e2 : strcmp s.namebuf (cstring "Integer Overflow") = 0
    · have e2' := (hs _).2 e2
      simp only [dispatch, e1, e1', e2, e2', if_true, if_false, write]
      split <;> rfl
    · have e2' : ¬ strcmp nb (cstring "Integer Overflow") = 0 := fun x => e2 ((hs _).1 x)
      by_cases e3 : strcmp s.namebuf (cstring "Age of Vampires") = 0
      · have e3' := (hs _).2 e3
        simp only [dispatch, e1, e1', e2, e2', e3, e3', if_true, if_false]
        cases vampire_loop fuel w s.c <;> rfl
      · have e3' : ¬ strcmp nb (cstring "Age of Vampires") = 0 := fun x => e3 ((hs _).1 x)
        by_cases e4 : strcmp s.namebuf (cstring "Terminator") = 0
        · have e4' := (hs _).2 e4
          simp only [dispatch, e1, e1', e2, e2', e3, e3', e4, e4', if_true, if_false]
          rfl
        · have e4' : ¬ strcmp nb (cstring "Terminator") = 0 := fun x => e4 ((hs _).1 x)
          simp only [dispatch, e1, e1', e2, e2', e3, e3', e4, e4', if_false, write,
            normal_reply, get_points, hg]
          split <;> (split <;> rfl)

/-- Dispatch neither reads nor changes the stream. -/
theorem dispatch_f (fuel : Nat) (w : WriteEnv) (s : Frame) (f' : FILE) :
    dispatch fuel w { s with f := f' }
      = (dispatch fuel w s).map (fun p => (p.1, { p.2 with f := f' })) := by
  simp only [dispatch, write, normal_reply, get_points]
  split
  · split <;> [rfl; (split <;> rfl)]
  · split
    · split <;> rfl
    · split
      · cases vampire_loop fuel w s.c <;> rfl
      · split
        · rfl
        · split <;> (split <;> rfl)

/-! ## Lemmas: one iteration and the whole loop -/

/-- One iteration on an ordinary request: the record is read, looked up, and
its reply handed to a single `write` call. -/
theorem body_ordinary (fuel : Nat) (w : WriteEnv) (s : Frame) (r later : List Nat)
    (hr : Ordinary r) (h : unread s.f = r ++ 10 :: later) :
    ∃ s', body fuel w s
        = some (if w s.c.calls (spec_reply r) = -1 then some Exit.write_failed else none, s') ∧
      s'.namebuf = r ++ 0 :: 0 :: s.namebuf.drop (r.length + 2) ∧
      unread s'.f = later ∧
      s'.c = ⟨s.c.out ++ (spec_reply r).take (w s.c.calls (spec_reply r)).toNat,
              s.c.calls + 1⟩ := by
  obtain ⟨hlen, h10, h0, hd⟩ := hr
  obtain ⟨f', hu, hrs⟩ := read_step_line s r later h10 hlen h
  have hc : cstr (r ++ 0 :: 0 :: s.namebuf.drop (r.length + 2)) = r := by
    rw [cstr_append_nul, cstr_of_no_nul _ h0]
  obtain ⟨s', hn, hf, hcn, hdis⟩ := dispatch_cstr fuel w
    { s with namebuf := r ++ 0 :: 0 :: s.namebuf.drop (r.length + 2), f := f' }
    (by simpa only [hc] using hd)
  simp only [hc] at hcn hdis
  refine ⟨s', ?_, hn, ?_, hcn⟩
  · simp only [body, hrs, hdis]
  · rw [hf]; exact hu

theorem write_all_ok (w : WriteEnv) (hw : AllOk w) (i : Nat) (d : List Nat) :
    ¬ (w i d = -1) ∧ d.take (w i d).toNat = d := by
  rw [hw i d]
  constructor
  · omega
  · simp

theorem clean_store (x nb : List Nat) (n : Nat) (hx : 10 ∉ x) (h : 10 ∉ nb.take n) :
    10 ∉ (x ++ nb.drop x.length).take n := by
  rw [List.take_append_eq_append_take, ← List.drop_take]
  intro hm
  rcases List.mem_append.1 hm with hm | hm
  · exact hx (List.mem_of_mem_take hm)
  · exact h (List.mem_of_mem_drop hm)

/-- The loop over a run of ordinary requests, every `write` accepting all:
after as many iterations as requests the replies are out, in order, and the
loop stands before what follows.  A `namebuf` without a newline among its
first `MAX_QUERY` bytes stays so. -/
theorem loop_requests (w : WriteEnv) (hw : AllOk w) (rs : List (List Nat))
    (hrs : ∀ r ∈ rs, Ordinary r) (later : List Nat) (fuel : Nat) (s : Frame)
    (h : unread s.f = wire rs ++ later) :
    ∃ s', unread s'.f = later ∧
      s'.c = ⟨s.c.out ++ replies rs, s.c.calls + rs.length⟩ ∧
      loop (rs.length + fuel) w s = loop fuel w s' ∧
      (10 ∉ s.namebuf.take MAX_QUERY → 10 ∉ s'.namebuf.take MAX_QUERY) := by
  induction rs generalizing s with
  | nil =>
    refine ⟨s, by simpa [wire] using h, by simp [replies], by simp, fun x => x⟩
  | cons r rs ih =>
    have hr : Ordinary r := hrs r (by simp)
    have hrs' : ∀ r ∈ rs, Ordinary r := fun x hx => hrs x (by simp [hx])
    have h' : unread s.f = r ++ 10 :: (wire rs ++ later) := by
      simpa [wire] using h
    obtain ⟨s1, hb, hn, hu, hc⟩ := body_ordinary (rs.length + fuel) w s r _ hr h'
    obtain ⟨hne, htake⟩ := write_all_ok w hw s.c.calls (spec_reply r)
    rw [if_neg hne] at hb
    rw [htake] at hc
    obtain ⟨s', hu', hc', hl, hcl⟩ := ih hrs' s1 hu
    refine ⟨s', hu', ?_, ?_, ?_⟩
    · rw [hc', hc]; simp [replies]; omega
    · have e : (r :: rs).length + fuel = (rs.length + fuel) + 1 := by simp; omega
      rw [e, loop, hb]
      exact hl
    · intro hclean
      apply hcl
      rw [hn]
      have hx : 10 ∉ r ++ [0, 0] := by
        simp only [List.mem_append, List.mem_cons, List.mem_singleton, List.not_mem_nil,
          not_or]
        exact ⟨hr.2.1, by decide, by decide, fun x => x⟩
      have := clean_store (r ++ [0, 0]) s.namebuf MAX_QUERY hx hclean
      simpa using this

theorem loop_eof (w : WriteEnv) (fuel : Nat) (s : Frame) (h : unread s.f = []) :
    loop (fuel + 1) w s = some (.eof, s) := by
  simp only [loop, body, read_step_eof s h]

theorem body_terminator (fuel : Nat) (w : WriteEnv) (s : Frame) (later : List Nat)
    (h : unread s.f = lit "Terminator" ++ 10 :: later) :
    ∃ s', body fuel w s = some (some Exit.terminator, s') ∧ s'.c = s.c ∧
      unread s'.f = later := by
  obtain ⟨f', hu, hrs⟩ := read_step_line s (lit "Terminator") later (by decide) (by decide) h
  have hc : cstr (lit "Terminator" ++ 0 :: 0 ::
      s.namebuf.drop ((lit "Terminator").length + 2)) = lit "Terminator" := by
    rw [cstr_append_nul, cstr_of_no_nul _ (by decide)]
  refine ⟨{ s with namebuf := lit "Terminator" ++ 0 :: 0 ::
      s.namebuf.drop ((lit "Terminator").length + 2), f := f' }, ?_, rfl, hu⟩
  simp only [body, hrs]
  exact dispatch_terminator fuel w _ hc

theorem w_all_ok : AllOk w_all := fun _ _ => rfl

/-! ## The claims -/

/-- C1 (framing round-trip).  When the unread input starts with a request `r`
of at most `NAME_LEN_MAX` bytes without a newline, followed by a newline, the
read step of one iteration goes on to dispatch with `namebuf` holding exactly
`r` and NUL in the place of the newline; exactly `r.length + 1` bytes are
consumed and every later byte stays unread.  The C string in `namebuf` is `r`
up to its first NUL, so it is `r` itself when `r` has no NUL. -/
theorem framing_round_trip (s : Frame) (r later : List Nat)
    (hlen : r.length ≤ NAME_LEN_MAX) (h10 : 10 ∉ r) (h : unread s.f = r ++ 10 :: later) :
    ∃ s', read_step s = Sum.inr s' ∧
      s'.namebuf.take r.length = r ∧ s'.namebuf[r.length]? = some 0 ∧
      s'.namebuf = r ++ 0 :: 0 :: s.namebuf.drop (r.length + 2) ∧
      cstr s'.namebuf = cstr r ∧ (0 ∉ r → cstr s'.namebuf = r) ∧
      unread s.f = (r ++ [10]) ++ unread s'.f ∧ unread s'.f = later ∧
      s'.c = s.c := by
  obtain ⟨f', hu, hrs⟩ := read_step_line s r later h10 hlen h
  refine ⟨_, hrs, ?_, ?_, rfl, ?_, ?_, ?_, hu, rfl⟩
  · simp
  · show (r ++ 0 :: 0 :: s.namebuf.drop (r.length + 2))[r.length]? = some 0
    rw [List.getElem?_append_right (le_refl _)]; simp
  · exact cstr_append_nul r _
  · intro h0
    show cstr (r ++ 0 :: _) = r
    rw [cstr_append_nul, cstr_of_no_nul _ h0]
  · show unread s.f = (r ++ [10]) ++ unread f'
    rw [hu, h]; simp

/-- An instance of C1 on concrete input. -/
theorem framing_round_trip_witness :
    (lit "Ada Lovelace").length ≤ NAME_LEN_MAX ∧ 10 ∉ lit "Ada Lovelace" ∧
    unread (frame0 ⟨[], [lit "Ada Lovelace\nFrodo", lit " Baggins\n"]⟩).f
      = lit "Ada Lovelace" ++ 10 :: lit "Frodo Baggins\n" ∧
    ∃ s', read_step (frame0 ⟨[], [lit "Ada Lovelace\nFrodo", lit " Baggins\n"]⟩) = Sum.inr s' ∧
      s'.namebuf.take (lit "Ada Lovelace").length = lit "Ada Lovelace" ∧
      s'.namebuf[(lit "Ada Lovelace").length]? = some 0 ∧
      s'.namebuf = lit "Ada Lovelace" ++ 0 :: 0 ::
        (frame0 ⟨[], [lit "Ada Lovelace\nFrodo", lit " Baggins\n"]⟩).namebuf.drop
          ((lit "Ada Lovelace").length + 2) ∧
      cstr s'.namebuf = cstr (lit "Ada Lovelace") ∧
      (0 ∉ lit "Ada Lovelace" → cstr s'.namebuf = lit "Ada Lovelace") ∧
      unread (frame0 ⟨[], [lit "Ada Lovelace\nFrodo", lit " Baggins\n"]⟩).f
        = (lit "Ada Lovelace" ++ [10]) ++ unread s'.f ∧
      unread s'.f = lit "Frodo Baggins\n" ∧
      s'.c = (frame0 ⟨[], [lit "Ada Lovelace\nFrodo", lit " Baggins\n"]⟩).c :=
  ⟨by decide, by decide, by decide,
    framing_round_trip _ _ _ (by decide) (by decide) (by decide)⟩

/-- C2 (bound enforcement).  When the unread input starts with
`NAME_LEN_MAX + 1` bytes none of which is a newline, whatever follows, the
iteration leaves the loop at "bad client" (`memchr` finds no newline): no
`write` call is made, exactly those `NAME_LEN_MAX + 1` bytes are consumed and
the rest stays unread, and the loop returns, so no later record is dispatched.
In the scenario of test `too_long` the 29-byte request is answered `none` and
the 30 bytes that follow end the session. -/
theorem bound_enforcement (fuel : Nat) (w : WriteEnv) (s : Frame) (r later : List Nat)
    (hlen : r.length = NAME_LEN_MAX + 1) (h10 : 10 ∉ r) (h : unread s.f = r ++ later) :
    (∃ s', body fuel w s = some (some Exit.no_newline, s') ∧
      loop (fuel + 1) w s = some (Exit.no_newline, s') ∧
      s'.c = s.c ∧ unread s'.f = later ∧
      (unread s.f).length = (unread s'.f).length + (NAME_LEN_MAX + 1)) ∧
    (do_client 3 w_all (List.replicate 31 0) (List.replicate 12 0) 0
        ⟨[], [lit "Prof. Shriram Krishnamurthi I\n", lit "Prof. Shriram Krishnamurthi II"]⟩).map
      (fun p => (p.1, p.2.c, unread p.2.f)) = some (Exit.no_newline, ⟨lit "none\n", 1⟩, [])
    := by
  refine ⟨?_, by decide⟩
  obtain ⟨f', hu, hrs⟩ := read_step_long s r later h10 hlen h
  refine ⟨{ s with namebuf := r ++ 0 :: s.namebuf.drop (MAX_QUERY + 1), f := f' },
    ?_, ?_, rfl, hu, ?_⟩
  · simp only [body, hrs]
  · simp only [loop, body, hrs]
  · show (unread s.f).length = (unread f').length + (NAME_LEN_MAX + 1)
    rw [hu, h, ← hlen]; simp; omega

/-- An instance of C2 on concrete input. -/
theorem bound_enforcement_witness :
    (lit "Prof. Shriram Krishnamurthi II").length = NAME_LEN_MAX + 1 ∧
    10 ∉ lit "Prof. Shriram Krishnamurthi II" ∧
    ((∃ s', body 0 w_all (frame0 ⟨lit "Prof. Shriram Krishnamurthi II\nAda Lovelace\n", []⟩)
          = some (some Exit.no_newline, s') ∧
      loop (0 + 1) w_all (frame0 ⟨lit "Prof. Shriram Krishnamurthi II\nAda Lovelace\n", []⟩)
          = some (Exit.no_newline, s') ∧
      s'.c = (frame0 ⟨lit "Prof. Shriram Krishnamurthi II\nAda Lovelace\n", []⟩).c ∧
      unread s'.f = lit "\nAda Lovelace\n" ∧
      (unread (frame0 ⟨lit "Prof. Shriram Krishnamurthi II\nAda Lovelace\n", []⟩).f).length
        = (unread s'.f).length + (NAME_LEN_MAX + 1)) ∧
    (do_client 3 w_all (List.replicate 31 0) (List.replicate 12 0) 0
        ⟨[], [lit "Prof. Shriram Krishnamurthi I\n", lit "Prof. Shriram Krishnamurthi II"]⟩).map
      (fun p => (p.1, p.2.c, unread p.2.f)) = some (Exit.no_newline, ⟨lit "none\n", 1⟩, [])) :=
  ⟨by decide, by decide,
    bound_enforcement 0 w_all _ (lit "Prof. Shriram Krishnamurthi II") (lit "\nAda Lovelace\n")
      (by decide) (by decide) (by decide)⟩

/-- C3 (coalescing and reply order).  For every list of ordinary requests
(each at most `NAME_LEN_MAX` bytes, no newline, no NUL, not a directive name)
whose wire form is the whole unread input of the connection, however it is
cut into deliveries, and then end of stream, with a `write` that accepts
everything and enough fuel for one iteration per request and the last one:
`do_client` returns at `fgets` returning `NULL`, the peer has received exactly
the replies in request order, one `write` call was made per request, and
nothing is left unread.  In the scenario of test `merged` the two requests sent
in one piece get their two replies in order. -/
theorem coalescing_reply_order (fuel : Nat) (w : WriteEnv) (namebuf replybuf : List Nat)
    (answer : Nat) (f : FILE) (rs : List (List Nat))
    (hrs : ∀ r ∈ rs, Ordinary r) (hw : AllOk w) (hf : unread f = wire rs)
    (hfuel : rs.length < fuel) :
    (∃ s', do_client fuel w namebuf replybuf answer f = some (Exit.eof, s') ∧
      s'.c.out = replies rs ∧ s'.c.calls = rs.length ∧ unread s'.f = []) ∧
    (do_client 3 w_all (List.replicate 31 0) (List.replicate 12 0) 0
        ⟨[], [lit "Ada Lovelace\nFrodo Baggins\n"]⟩).map (fun p => (p.1, p.2.c))
      = some (Exit.eof, ⟨lit "64265\n177\n", 2⟩) := by
  refine ⟨?_, by decide⟩
  obtain ⟨k, hk⟩ : ∃ k, fuel = rs.length + (k + 1) := ⟨fuel - rs.length - 1, by omega⟩
  obtain ⟨s', hu, hc, hl, -⟩ := loop_requests w hw rs hrs [] (k + 1)
    ⟨namebuf, replybuf, answer, f, ⟨[], 0⟩⟩ (by simpa using hf)
  refine ⟨s', ?_, ?_, ?_, hu⟩
  · rw [do_client, hk, hl]; exact loop_eof w k s' hu
  · rw [hc]; simp
  · rw [hc]; simp

/-- An instance of C3 on concrete input. -/
theorem coalescing_reply_order_witness :
    (∀ r ∈ [lit "Ada Lovelace", lit "Alan Turing"], Ordinary r) ∧ AllOk w_all ∧
    unread ⟨lit "Ada", [lit " Lovelace\nAl", lit "an Turing\n"]⟩
      = wire [lit "Ada Lovelace", lit "Alan Turing"] ∧
    ((∃ s', do_client 3 w_all [] [] 0 ⟨lit "Ada", [lit " Lovelace\nAl", lit "an Turing\n"]⟩
          = some (Exit.eof, s') ∧
      s'.c.out = replies [lit "Ada Lovelace", lit "Alan Turing"] ∧
      s'.c.calls = [lit "Ada Lovelace", lit "Alan Turing"].length ∧ unread s'.f = []) ∧
    (do_client 3 w_all (List.replicate 31 0) (List.replicate 12 0) 0
        ⟨[], [lit "Ada Lovelace\nFrodo Baggins\n"]⟩).map (fun p => (p.1, p.2.c))
      = some (Exit.eof, ⟨lit "64265\n177\n", 2⟩)) :=
  ⟨by decide, w_all_ok, by decide,
    coalescing_reply_order 3 w_all [] [] 0 _ [lit "Ada Lovelace", lit "Alan Turing"]
      (by decide) w_all_ok (by decide) (by decide)⟩

/-- C6 (disconnect directive).  When the unread input is the wire form of `k`
ordinary requests, then `Terminator` and a newline, then any bytes at all, and
every `write` accepts everything: `do_client` returns at the `break` of
`Terminator`, the peer has received exactly the `k` replies, exactly `k`
`write` calls were made (none for `Terminator`), and all bytes after the
directive are still unread.  For any behaviour of `write` whatever, the
iteration that reads `Terminator` makes no `write` call and leaves the loop. -/
theorem disconnect_directive (fuel : Nat) (w : WriteEnv) (namebuf replybuf : List Nat)
    (answer : Nat) (f : FILE) (rs : List (List Nat)) (later : List Nat)
    (hrs : ∀ r ∈ rs, Ordinary r) (hw : AllOk w)
    (hf : unread f = wire rs ++ (lit "Terminator" ++ 10 :: later))
    (hfuel : rs.length < fuel) :
    (∃ s', do_client fuel w namebuf replybuf answer f = some (Exit.terminator, s') ∧
      s'.c.out = replies rs ∧ s'.c.calls = rs.length ∧ unread s'.f = later) ∧
    (∀ (w' : WriteEnv) (s : Frame), unread s.f = lit "Terminator" ++ 10 :: later →
      ∃ s', body fuel w' s = some (some Exit.terminator, s') ∧ s'.c = s.c ∧
        unread s'.f = later) := by
  refine ⟨?_, fun w' s h => body_terminator fuel w' s later h⟩
  obtain ⟨k, hk⟩ : ∃ k, fuel = rs.length + (k + 1) := ⟨fuel - rs.length - 1, by omega⟩
  obtain ⟨s1, hu, hc, hl, -⟩ := loop_requests w hw rs hrs _ (k + 1)
    ⟨namebuf, replybuf, answer, f, ⟨[], 0⟩⟩ hf
  obtain ⟨s', hb, hc', hu'⟩ := body_terminator k w s1 later hu
  refine ⟨s', ?_, ?_, ?_, hu'⟩
  · rw [do_client, hk, hl, loop, hb]
  · rw [hc', hc]; simp
  · rw [hc', hc]; simp

/-- An instance of C6 on concrete input. -/
theorem disconnect_directive_witness :
    (∀ r ∈ [lit "Frodo Baggins"], Ordinary r) ∧ AllOk w_all ∧
    unread ⟨[], [lit "Frodo Baggins\nTerminator\nAda Lovelace\n"]⟩
      = wire [lit "Frodo Baggins"] ++ (lit "Terminator" ++ 10 :: lit "Ada Lovelace\n") ∧
    ((∃ s', do_client 2 w_all [] [] 0 ⟨[], [lit "Frodo Baggins\nTerminator\nAda Lovelace\n"]⟩
          = some (Exit.terminator, s') ∧
      s'.c.out = replies [lit "Frodo Baggins"] ∧ s'.c.calls = [lit "Frodo Baggins"].length ∧
      unread s'.f = lit "Ada Lovelace\n") ∧
    (∀ (w' : WriteEnv) (s : Frame),
      unread s.f = lit "Terminator" ++ 10 :: lit "Ada Lovelace\n" →
      ∃ s', body 2 w' s = some (some Exit.terminator, s') ∧ s'.c = s.c ∧
        unread s'.f = lit "Ada Lovelace\n")) :=
  ⟨by decide, w_all_ok, by decide,
    disconnect_directive 2 w_all [] [] 0 _ [lit "Frodo Baggins"] (lit "Ada Lovelace\n")
      (by decide) w_all_ok (by decide) (by decide)⟩

theorem spec_reply_found : ∀ t ∈ my_records, spec_reply t.name = utoa t.points ++ [10] := by
  decide

theorem find_name :
    ∀ t ∈ my_records, my_records.find? (fun u => decide (u.name = t.name)) = some t := by
  decide

theorem spec_reply_absent (r : List Nat) (h : ∀ t ∈ my_records, t.name ≠ r) :
    spec_reply r = lit "none\n" := by
  have : my_records.find? (fun t => decide (t.name = r)) = none := by
    rw [List.find?_eq_none]
    intro t ht
    simpa using h t ht
  simp only [spec_reply, this]

theorem get_points_found (nb : List Nat) (a : Nat) (t : tuple) (ht : t ∈ my_records)
    (h : cstr nb = t.name) : get_points nb a = (1, t.points) := by
  rw [get_points, get_points_loop_find _ _ _ my_records_no_nul, h, find_name t ht]

theorem get_points_absent (nb : List Nat) (a : Nat)
    (h : ∀ t ∈ my_records, t.name ≠ cstr nb) : get_points nb a = (0, a) := by
  have : my_records.find? (fun t => decide (t.name = cstr nb)) = none := by
    rw [List.find?_eq_none]
    intro t ht
    simpa using h t ht
  rw [get_points, get_points_loop_find _ _ _ my_records_no_nul, this]

/-- C4 (lookup correctness).  For every ordinary request `r` at the head of the
unread input and a `write` that accepts everything, the iteration goes on with
one `write` call made, and the bytes the peer receives are: the decimal
numeral of the points of the entry of `my_records` whose name is `r`, and a
newline, when there is such an entry (`get_points` returns 1 and stores those
points); `none` and a newline when no entry has the name `r` (`get_points`
returns 0 and leaves `answer`).  So `Ada Lovelace` gets `64265`, `Frodo
Baggins` gets `177`, and `Bilbo Baggins` and `Alan Turing` get `none`. -/
theorem lookup_correctness (fuel : Nat) (w : WriteEnv) (s : Frame) (r later : List Nat)
    (hr : Ordinary r) (hw : AllOk w) (h : unread s.f = r ++ 10 :: later) :
    ∃ s', body fuel w s = some (none, s') ∧ cstr s'.namebuf = r ∧ unread s'.f = later ∧
      s'.c.calls = s.c.calls + 1 ∧
      (∀ t ∈ my_records, t.name = r →
        (∀ a, get_points s'.namebuf a = (1, t.points)) ∧
        s'.c.out = s.c.out ++ (utoa t.points ++ [10])) ∧
      ((∀ t ∈ my_records, t.name ≠ r) →
        (∀ a, get_points s'.namebuf a = (0, a)) ∧ s'.c.out = s.c.out ++ lit "none\n") ∧
      (r = lit "Ada Lovelace" → s'.c.out = s.c.out ++ lit "64265\n") ∧
      (r = lit "Frodo Baggins" → s'.c.out = s.c.out ++ lit "177\n") ∧
      (r = lit "Bilbo Baggins" → s'.c.out = s.c.out ++ lit "none\n") ∧
      (r = lit "Alan Turing" → s'.c.out = s.c.out ++ lit "none\n") := by
  obtain ⟨s', hb, hn, hu, hc⟩ := body_ordinary fuel w s r later hr h
  obtain ⟨hne, htake⟩ := write_all_ok w hw s.c.calls (spec_reply r)
  rw [if_neg hne] at hb
  rw [htake] at hc
  have hcs : cstr s'.namebuf = r := by
    rw [hn, cstr_append_nul, cstr_of_no_nul _ hr.2.2.1]
  have hout : s'.c.out = s.c.out ++ spec_reply r := by rw [hc]
  refine ⟨s', hb, hcs, hu, by rw [hc], ?_, ?_, ?_, ?_, ?_, ?_⟩
  · intro t ht htr
    refine ⟨fun a => get_points_found _ a t ht (by rw [hcs, htr]), ?_⟩
    rw [hout, ← htr, spec_reply_found t ht]
  · intro hab
    refine ⟨fun a => get_points_absent _ a (by rw [hcs]; exact hab), ?_⟩
    rw [hout, spec_reply_absent r hab]
  · rintro rfl
    rw [hout, (by decide : spec_reply (lit "Ada Lovelace") = lit "64265\n")]
  · rintro rfl
    rw [hout, (by decide : spec_reply (lit "Frodo Baggins") = lit "177\n")]
  · rintro rfl
    rw [hout, (by decide : spec_reply (lit "Bilbo Baggins") = lit "none\n")]
  · rintro rfl
    rw [hout, (by decide : spec_reply (lit "Alan Turing") = lit "none\n")]


/-- An instance of C4 on concrete input. -/
theorem lookup_correctness_witness :
    Ordinary (lit "Ada Lovelace") ∧ AllOk w_all ∧
    unread (frame0 ⟨[], [lit "Ada Lovelace\n"]⟩).f = lit "Ada Lovelace" ++ 10 :: [] ∧
    ∃ s', body 0 w_all (frame0 ⟨[], [lit "Ada Lovelace\n"]⟩) = some (none, s') ∧
      cstr s'.namebuf = lit "Ada Lovelace" ∧ unread s'.f = [] ∧
      s'.c.calls = (frame0 ⟨[], [lit "Ada Lovelace\n"]⟩).c.calls + 1 ∧
      (∀ t ∈ my_records, t.name = lit "Ada Lovelace" →
        (∀ a, get_points s'.namebuf a = (1, t.points)) ∧
        s'.c.out = (frame0 ⟨[], [lit "Ada Lovelace\n"]⟩).c.out ++ (utoa t.points ++ [10])) ∧
      ((∀ t ∈ my_records, t.name ≠ lit "Ada Lovelace") →
        (∀ a, get_points s'.namebuf a = (0, a)) ∧
        s'.c.out = (frame0 ⟨[], [lit "Ada Lovelace\n"]⟩).c.out ++ lit "none\n") ∧
      (lit "Ada Lovelace" = lit "Ada Lovelace" →
        s'.c.out = (frame0 ⟨[], [lit "Ada Lovelace\n"]⟩).c.out ++ lit "64265\n") ∧
      (lit "Ada Lovelace" = lit "Frodo Baggins" →
        s'.c.out = (frame0 ⟨[], [lit "Ada Lovelace\n"]⟩).c.out ++ lit "177\n") ∧
      (lit "Ada Lovelace" = lit "Bilbo Baggins" →
        s'.c.out = (frame0 ⟨[], [lit "Ada Lovelace\n"]⟩).c.out ++ lit "none\n") ∧
      (lit "Ada Lovelace" = lit "Alan Turing" →
        s'.c.out = (frame0 ⟨[], [lit "Ada Lovelace\n"]⟩).c.out ++ lit "none\n") :=
  ⟨by decide, w_all_ok, by decide,
    lookup_correctness 0 w_all _ (lit "Ada Lovelace") [] (by decide) w_all_ok (by decide)⟩

/-- C7, as stated, fails.  With a `write` that accepts one byte per call and
never reports an error, the request `Ada Lovelace` owes the six bytes of
`64265` and a newline; `do_client` makes one `write` call, the peer receives
the single byte `6`, and `do_client` goes on to read the next request, where
it meets end of stream. -/
theorem reply_writer_does_not_retry :
    spec_reply (lit "Ada Lovelace") = lit "64265\n" ∧
    (0 : Int) < w_one 0 (lit "64265\n") ∧ w_one 0 (lit "64265\n") < (lit "64265\n").length ∧
    (do_client 2 w_one (List.replicate 31 0) (List.replicate 12 0) 0
        ⟨[], [lit "Ada Lovelace\n"]⟩).map (fun p => (p.1, p.2.c))
      = some (Exit.eof, ⟨lit "6", 1⟩) := by
  decide

/-- C7, amended.  For every ordinary request at the head of the unread input
and every behaviour of `write`, the iteration hands the whole reply to exactly
one `write` call and never retries: when the call returns `k`, the peer
receives the first `k` bytes of the reply (none when `k` is `-1`), and unless
`k` is `-1` the loop goes on to the next request; a return of `-1`, and only
that, leaves the loop as a write failure. -/
theorem reply_single_write (fuel : Nat) (w : WriteEnv) (s : Frame) (r later : List Nat)
    (hr : Ordinary r) (h : unread s.f = r ++ 10 :: later) :
    ∃ s', body fuel w s
        = some (if w s.c.calls (spec_reply r) = -1 then some Exit.write_failed else none, s') ∧
      s'.c.calls = s.c.calls + 1 ∧
      s'.c.out = s.c.out ++ (spec_reply r).take (w s.c.calls (spec_reply r)).toNat ∧
      unread s'.f = later := by
  obtain ⟨s', hb, -, hu, hc⟩ := body_ordinary fuel w s r later hr h
  exact ⟨s', hb, by rw [hc], by rw [hc], hu⟩

/-- An instance of C7, amended on concrete input. -/
theorem reply_single_write_witness :
    Ordinary (lit "Ada Lovelace") ∧
    unread (frame0 ⟨[], [lit "Ada Lovelace\nFrodo Baggins\n"]⟩).f
      = lit "Ada Lovelace" ++ 10 :: lit "Frodo Baggins\n" ∧
    ∃ s', body 0 w_one (frame0 ⟨[], [lit "Ada Lovelace\nFrodo Baggins\n"]⟩)
        = some (if w_one (frame0 ⟨[], [lit "Ada Lovelace\nFrodo Baggins\n"]⟩).c.calls
                    (spec_reply (lit "Ada Lovelace")) = -1
                then some Exit.write_failed else none, s') ∧
      s'.c.calls = (frame0 ⟨[], [lit "Ada Lovelace\nFrodo Baggins\n"]⟩).c.calls + 1 ∧
      s'.c.out = (frame0 ⟨[], [lit "Ada Lovelace\nFrodo Baggins\n"]⟩).c.out ++
        (spec_reply (lit "Ada Lovelace")).take
          (w_one (frame0 ⟨[], [lit "Ada Lovelace\nFrodo Baggins\n"]⟩).c.calls
            (spec_reply (lit "Ada Lovelace"))).toNat ∧
      unread s'.f = lit "Frodo Baggins\n" :=
  ⟨by decide, by decide,
    reply_single_write 0 w_one _ (lit "Ada Lovelace") (lit "Frodo Baggins\n")
      (by decide) (by decide)⟩

/-- C5 fails on the code.  `namebuf` is not initialised; here the stack left a
single newline in its byte 7 and zeros elsewhere.  The peer sends the two bytes
`ab` and closes.  `fgets` stores `ab` and NUL and returns the buffer, `memchr`
scans all `MAX_QUERY` bytes and finds the stale newline, so the cut-off tail is
dispatched as the request `ab`: `get_points` is called and the reply `none` is
written, where the session should have ended with no reply. -/
theorem incomplete_tail_dispatched :
    (lit "ab").length < NAME_LEN_MAX + 1 ∧ 10 ∉ lit "ab" ∧
    (List.replicate 7 0 ++ 10 :: List.replicate 23 0).length = MAX_QUERY + 1 ∧
    fgets (List.replicate 7 0 ++ 10 :: List.replicate 23 0) (MAX_QUERY + 1) ⟨[], [lit "ab"]⟩
      = some (lit "ab" ++ 0 :: List.replicate 4 0 ++ 10 :: List.replicate 23 0, ⟨[], []⟩) ∧
    memchr (lit "ab" ++ 0 :: List.replicate 4 0 ++ 10 :: List.replicate 23 0) 10 MAX_QUERY
      = some 7 ∧
    (do_client 2 w_all (List.replicate 7 0 ++ 10 :: List.replicate 23 0)
        (List.replicate 12 0) 0 ⟨[], [lit "ab"]⟩).map (fun p => (p.1, p.2.c))
      = some (Exit.eof, ⟨lit "none\n", 1⟩) := by
  decide

/-- The two shapes of the normal reply. -/
theorem normal_reply_cases (s : Frame) :
    (∃ t ∈ my_records, (normal_reply s).2 = (utoa t.points).length + 1 ∧
      (normal_reply s).1.replybuf.take (normal_reply s).2 = utoa t.points ++ [10]) ∨
    ((normal_reply s).2 = 5 ∧
      (normal_reply s).1.replybuf.take (normal_reply s).2 = lit "none" ++ [10]) := by
  have hg := get_points_loop_find my_records s.namebuf s.answer my_records_no_nul
  cases hf : my_records.find? (fun t => decide (t.name = cstr s.namebuf)) with
  | none =>
    rw [hf] at hg
    right
    simp only [normal_reply, get_points, hg]
    refine ⟨rfl, ?_⟩
    have h5 : (lit "none\n").length = 5 := by decide
    have e : lit "none" ++ [10] = lit "none\n" := by decide
    simp [store, ← h5, e]
  | some t =>
    rw [hf] at hg
    have hmem : t ∈ my_records := List.mem_of_find?_eq_some hf
    have hv := my_records_points t hmem
    left
    refine ⟨t, hmem, ?_⟩
    simp only [normal_reply, get_points, hg]
    simp only [ne_eq, one_ne_zero, not_false_eq_true, if_true]
    rw [snprintf_u_full _ _ hv, strlen_numeral]
    refine ⟨rfl, ?_⟩
    have h : utoa t.points ++ 10 :: 0 :: List.drop ((utoa t.points).length + 2) s.replybuf
        = (utoa t.points ++ [10]) ++ 0 :: List.drop ((utoa t.points).length + 2) s.replybuf := by
      simp
    rw [h]
    have hl : (utoa t.points).length + 1 = (utoa t.points ++ [10]).length := by simp
    rw [hl, List.take_left]

/-- C8 (reply record bound).  Whatever the frame, the normal reply built in
`replybuf` has `replylen ≤ MAX_REPLY`; its `replylen` bytes are a payload of at
most 10 bytes without a newline followed by one newline as the last byte; the
payload is `none` or the decimal numeral of an unsigned 32-bit value.  For
every unsigned 32-bit value `snprintf(replybuf, MAX_REPLY+1, "%u\n", v)` stores
the whole numeral and the newline: the string left in the buffer is the
numeral and the newline, of length at most `MAX_REPLY`; so it is for
4294967295 and for the 2488897010 of the table. -/
theorem reply_record_bound (s : Frame) (v : Nat) (rb : List Nat) :
    ((normal_reply s).2 ≤ MAX_REPLY ∧
      ∃ payload, (normal_reply s).1.replybuf.take (normal_reply s).2 = payload ++ [10] ∧
        (normal_reply s).2 = payload.length + 1 ∧
        payload.length ≤ 10 ∧ 10 ∉ payload ∧
        (payload = lit "none" ∨ ∃ p, p < 2 ^ 32 ∧ payload = utoa p)) ∧
    (cstr (snprintf_u rb (MAX_REPLY + 1) v) = utoa (v % 2 ^ 32) ++ [10] ∧
      strlen (snprintf_u rb (MAX_REPLY + 1) v) ≤ MAX_REPLY ∧
      (utoa (v % 2 ^ 32)).length ≤ 10 ∧ 10 ∉ utoa (v % 2 ^ 32)) ∧
    cstr (snprintf_u rb (MAX_REPLY + 1) 4294967295) = lit "4294967295\n" ∧
    cstr (snprintf_u rb (MAX_REPLY + 1) 2488897010) = lit "2488897010\n" := by
  have hsn : ∀ u, u < 2 ^ 32 →
      cstr (snprintf_u rb (MAX_REPLY + 1) u) = utoa u ++ [10] := by
    intro u hu
    rw [snprintf_u_full _ _ hu]
    have h : utoa u ++ 10 :: 0 :: List.drop ((utoa u).length + 2) rb
        = (utoa u ++ [10]) ++ 0 :: List.drop ((utoa u).length + 2) rb := by simp
    have h0 : 0 ∉ utoa u ++ [10] := by
      simp only [List.mem_append, List.mem_singleton, not_or]
      exact ⟨utoa_no_nul u, by decide⟩
    rw [h, cstr_append_nul, cstr_of_no_nul _ h0]
  have hmod : v % 2 ^ 32 < 2 ^ 32 := Nat.mod_lt _ (by norm_num)
  have hvv : snprintf_u rb (MAX_REPLY + 1) v = snprintf_u rb (MAX_REPLY + 1) (v % 2 ^ 32) := by
    simp [snprintf_u]
  refine ⟨?_, ⟨?_, ?_, utoa_length _ hmod, utoa_no_newline _⟩, ?_, ?_⟩
  · rcases normal_reply_cases s with ⟨t, ht, hlen, htake⟩ | ⟨hlen, htake⟩
    · have hp := my_records_points t ht
      have hl := utoa_length _ hp
      refine ⟨by rw [hlen]; simp only [MAX_REPLY]; omega, utoa t.points, htake, hlen, hl,
        utoa_no_newline _, Or.inr ⟨t.points, hp, rfl⟩⟩
    · refine ⟨by rw [hlen]; decide, lit "none", htake, by rw [hlen]; decide, by decide,
        by decide, Or.inl rfl⟩
  · rw [hvv, hsn _ hmod]
  · rw [strlen, hvv, hsn _ hmod]
    have := utoa_length _ hmod
    rw [List.length_append, List.length_singleton]
    simp only [MAX_REPLY]; omega
  · rw [hsn _ (by norm_num)]; decide
  · rw [hsn _ (by norm_num)]; decide

theorem cstr_length_le (r : List Nat) : (cstr r).length ≤ r.length := by
  simp only [cstr]
  exact (List.takeWhile_sublist _).length_le

theorem cstr_subset (r : List Nat) (x : Nat) (h : x ∈ cstr r) : x ∈ r := by
  simp only [cstr] at h
  exact (List.takeWhile_sublist _).subset h

theorem cstr_ne_of_nul (r : List Nat) (h0 : 0 ∈ r) : cstr r ≠ r := by
  intro e
  have := cstr_no_nul r
  rw [e] at this
  exact this h0

/-- C10 (dispatch sees only the bytes before the first NUL).  For a request
line `r` of at most `NAME_LEN_MAX` bytes without a newline that holds a NUL,
the iteration on `r` and the iteration on the bytes of `r` before its first
NUL (whatever `namebuf` held before, the other variables and the write side
being the same) take the same exit or both go on, make the same `write` calls
with the same bytes received by the peer, and leave the same input unread; the
C string dispatched is not `r`.  So `Ada Lovelace`, NUL, `x` is answered
`64265`, and `Terminator`, NUL, `x` disconnects with no `write` call, though
neither record is a table name or a directive name. -/
theorem dispatch_before_nul (fuel : Nat) (w : WriteEnv) (s : Frame) (nb2 : List Nat) (f2 : FILE)
    (r later : List Nat) (hlen : r.length ≤ NAME_LEN_MAX) (h10 : 10 ∉ r) (h0 : 0 ∈ r)
    (h : unread s.f = r ++ 10 :: later) (h2 : unread f2 = cstr r ++ 10 :: later) :
    ((body fuel w s).map (fun p => (p.1, p.2.c, unread p.2.f))
      = (body fuel w { s with namebuf := nb2, f := f2 }).map
          (fun p => (p.1, p.2.c, unread p.2.f))) ∧
    (∃ s', read_step s = Sum.inr s' ∧ cstr s'.namebuf = cstr r ∧ cstr r ≠ r) ∧
    ((do_client 2 w_all (List.replicate 31 0) (List.replicate 12 0) 0
        ⟨[], [lit "Ada Lovelace" ++ 0 :: lit "x\n"]⟩).map (fun p => (p.1, p.2.c))
      = some (Exit.eof, ⟨lit "64265\n", 1⟩)) ∧
    ((do_client 2 w_all (List.replicate 31 0) (List.replicate 12 0) 0
        ⟨[], [lit "Terminator" ++ 0 :: lit "x\nAda Lovelace\n"]⟩).map
          (fun p => (p.1, p.2.c, unread p.2.f))
      = some (Exit.terminator, ⟨[], 0⟩, lit "Ada Lovelace\n")) ∧
    (∀ t ∈ my_records, t.name ≠ lit "Ada Lovelace" ++ 0 :: lit "x") ∧
    lit "Terminator" ++ 0 :: lit "x" ∉ directives := by
  refine ⟨?_, ?_, by decide, by decide, by decide, by decide⟩
  · obtain ⟨fA, huA, hA⟩ := read_step_line s r later h10 hlen h
    have h10' : 10 ∉ cstr r := fun x => h10 (cstr_subset r 10 x)
    have hlen' : (cstr r).length ≤ NAME_LEN_MAX := le_trans (cstr_length_le r) hlen
    obtain ⟨fB, huB, hB⟩ := read_step_line { s with namebuf := nb2, f := f2 } (cstr r) later
      h10' hlen' h2
    have hcs : cstr (cstr r ++ 0 :: 0 :: nb2.drop ((cstr r).length + 2))
        = cstr (r ++ 0 :: 0 :: s.namebuf.drop (r.length + 2)) := by
      rw [cstr_append_nul, cstr_append_nul, cstr_of_no_nul _ (cstr_no_nul r)]
    have hcong := dispatch_congr fuel w
      { s with namebuf := r ++ 0 :: 0 :: s.namebuf.drop (r.length + 2) }
      (cstr r ++ 0 :: 0 :: nb2.drop ((cstr r).length + 2)) hcs
    have hfA := dispatch_f fuel w
      { s with namebuf := r ++ 0 :: 0 :: s.namebuf.drop (r.length + 2) } fA
    have hfB := dispatch_f fuel w
      { s with namebuf := cstr r ++ 0 :: 0 :: nb2.drop ((cstr r).length + 2) } fB
    simp only [body, hA, hB]
    simp only at hcong hfA hfB ⊢
    rw [hfA, hfB]
    cases hdA : dispatch fuel w
        { s with namebuf := r ++ 0 :: 0 :: s.namebuf.drop (r.length + 2) } with
    | none =>
      rw [hdA] at hcong
      cases hdB : dispatch fuel w
          { s with namebuf := cstr r ++ 0 :: 0 :: nb2.drop ((cstr r).length + 2) } with
      | none => rfl
      | some q => rw [hdB] at hcong; simp at hcong
    | some p =>
      rw [hdA] at hcong
      cases hdB : dispatch fuel w
          { s with namebuf := cstr r ++ 0 :: 0 :: nb2.drop ((cstr r).length + 2) } with
      | none => rw [hdB] at hcong; simp at hcong
      | some q =>
        rw [hdB] at hcong
        simp only [Option.map_some', Option.some.injEq, Prod.mk.injEq] at hcong ⊢
        exact ⟨hcong.1.symm, hcong.2.1.symm, by rw [huA, huB]⟩
  · obtain ⟨fA, -, hA⟩ := read_step_line s r later h10 hlen h
    exact ⟨_, hA, cstr_append_nul r _, cstr_ne_of_nul r h0⟩

/-- An instance of C10 on concrete input. -/
theorem dispatch_before_nul_witness :
    (lit "Ada Lovelace" ++ 0 :: lit "x").length ≤ NAME_LEN_MAX ∧
    10 ∉ lit "Ada Lovelace" ++ 0 :: lit "x" ∧ 0 ∈ lit "Ada Lovelace" ++ 0 :: lit "x" ∧
    unread (frame0 ⟨[], [lit "Ada Lovelace" ++ 0 :: lit "x\n"]⟩).f
      = (lit "Ada Lovelace" ++ 0 :: lit "x") ++ 10 :: [] ∧
    unread ⟨[], [lit "Ada Lovelace\n"]⟩
      = cstr (lit "Ada Lovelace" ++ 0 :: lit "x") ++ 10 :: [] ∧
    (body 0 w_all (frame0 ⟨[], [lit "Ada Lovelace" ++ 0 :: lit "x\n"]⟩)).map
        (fun p => (p.1, p.2.c, unread p.2.f))
      = (body 0 w_all { frame0 ⟨[], [lit "Ada Lovelace" ++ 0 :: lit "x\n"]⟩ with
            namebuf := List.replicate 31 7, f := ⟨[], [lit "Ada Lovelace\n"]⟩ }).map
          (fun p => (p.1, p.2.c, unread p.2.f)) :=
  ⟨by decide, by decide, by decide, by decide, by decide,
    (dispatch_before_nul 0 w_all (frame0 ⟨[], [lit "Ada Lovelace" ++ 0 :: lit "x\n"]⟩)
      (List.replicate 31 7) ⟨[], [lit "Ada Lovelace\n"]⟩ (lit "Ada Lovelace" ++ 0 :: lit "x") []
      (by decide) (by decide) (by decide) (by decide) (by decide)).1⟩

/-! ## Lemmas: the cutting of the input into deliveries does not matter -/

theorem fgets_same_input (nb : List Nat) (f g : FILE) (h : unread f = unread g) :
    (fgets nb (MAX_QUERY + 1) f = none ∧ fgets nb (MAX_QUERY + 1) g = none) ∨
    ∃ nb' f' g', fgets nb (MAX_QUERY + 1) f = some (nb', f') ∧
      fgets nb (MAX_QUERY + 1) g = some (nb', g') ∧ unread f' = unread g' := by
  by_cases he : fgets_line MAX_QUERY (unread f) = []
  · left
    exact ⟨(fgets_unread nb f).1 he, (fgets_unread nb g).1 (by rw [← h]; exact he)⟩
  · right
    obtain ⟨f', hf, hu⟩ := (fgets_unread nb f).2 he
    obtain ⟨g', hg, hv⟩ := (fgets_unread nb g).2 (by rw [← h]; exact he)
    rw [← h] at hg hv
    exact ⟨_, f', g', hf, hg, by rw [hu, hv]⟩

theorem dispatch_keeps_f (fuel : Nat) (w : WriteEnv) (s : Frame) (p : Option Exit × Frame)
    (h : dispatch fuel w s = some p) : p.2.f = s.f := by
  have := dispatch_f fuel w s s.f
  rw [h] at this
  simp only [Option.map_some', Option.some.injEq] at this
  have e : p.2 = { p.2 with f := s.f } := by
    have := congrArg (fun q => q.2) this
    simpa using this
  rw [e]

theorem body_same_input (fuel : Nat) (w : WriteEnv) (a b : Frame) (h : SameInput a b) :
    (body fuel w a = none ∧ body fuel w b = none) ∨
    ∃ x a' b', body fuel w a = some (x, a') ∧ body fuel w b = some (x, b') ∧
      SameInput a' b' := by
  obtain ⟨hn, hr, ha, hc, hu⟩ := h
  have hb : b = { a with f := b.f } := by
    cases a; cases b; simp only at hn hr ha hc; subst hn hr ha hc; rfl
  rcases fgets_same_input a.namebuf a.f b.f hu with ⟨h1, h2⟩ | ⟨nb', f', g', h1, h2, hu'⟩
  · right
    refine ⟨some Exit.eof, a, b, ?_, ?_, hn, hr, ha, hc, hu⟩
    · simp only [body, read_step, h1]
    · have h2' : fgets b.namebuf (MAX_QUERY + 1) b.f = none := by rw [← hn]; exact h2
      simp only [body, read_step, h2']
  · have h2' : fgets b.namebuf (MAX_QUERY + 1) b.f = some (nb', g') := by rw [← hn]; exact h2
    cases hm : memchr nb' 10 MAX_QUERY with
    | none =>
      right
      refine ⟨some Exit.no_newline, { a with namebuf := nb', f := f' },
        { b with namebuf := nb', f := g' }, ?_, ?_, rfl, hr, ha, hc, hu'⟩
      · simp only [body, read_step, h1, hm]
      · simp only [body, read_step, h2', hm]
    | some nl =>
      have ea : body fuel w a
          = dispatch fuel w { a with namebuf := nb'.set nl 0, f := f' } := by
        simp only [body, read_step, h1, hm]
      have eb : body fuel w b
          = dispatch fuel w { a with namebuf := nb'.set nl 0, f := g' } := by
        rw [hb]; simp only [body, read_step, h2, hm]
      have hfa := dispatch_f fuel w { a with namebuf := nb'.set nl 0 } f'
      have hfb := dispatch_f fuel w { a with namebuf := nb'.set nl 0 } g'
      simp only at hfa hfb
      rw [ea, eb, hfa, hfb]
      cases hd : dispatch fuel w { a with namebuf := nb'.set nl 0 } with
      | none => left; exact ⟨rfl, rfl⟩
      | some p =>
        right
        exact ⟨p.1, { p.2 with f := f' }, { p.2 with f := g' }, rfl, rfl, rfl, rfl, rfl, rfl,
          hu'⟩

/-- The loop shows the same whatever the cutting of the unread input into
deliveries. -/
theorem loop_same_input (fuel : Nat) (w : WriteEnv) (a b : Frame) (h : SameInput a b) :
    (loop fuel w a).map view = (loop fuel w b).map view := by
  induction fuel generalizing a b with
  | zero => rfl
  | succ k ih =>
    rcases body_same_input k w a b h with ⟨h1, h2⟩ | ⟨x, a', b', h1, h2, hs⟩
    · simp only [loop, h1, h2]
    · cases x with
      | some e =>
        obtain ⟨hn, hr, ha, hc, hu⟩ := hs
        simp only [loop, h1, h2, Option.map_some', view, hn, hr, ha, hc, hu]
      | none =>
        simp only [loop, h1, h2]
        exact ih a' b' hs

theorem unread_split (x : List Nat) (i : Nat) (rest : List (List Nat)) :
    unread ⟨[], x.take i :: x.drop i :: rest⟩ = unread ⟨[], x :: rest⟩ := by
  simp only [unread, unread_pending, List.nil_append]
  rw [← List.append_assoc, List.take_append_drop]

/-- C9 (split-delivery independence).  For every request `r` of at most
`NAME_LEN_MAX` bytes without a newline and every offset `i`, when `r` and its
newline arrive as two deliveries, the first `i` bytes and then the others
(with any deliveries after them), the read step decodes the same record into
`namebuf` as when they arrive in one delivery, namely `r` with NUL in the place
of the newline, and leaves the same input unread; the iteration takes the same
exit and leaves the same write side; and the whole of `do_client` shows the
same.  In the scenario of test `split` the two pieces are answered as the one
29-byte request, with `none`. -/
theorem split_delivery (fuel : Nat) (w : WriteEnv) (namebuf replybuf : List Nat) (answer : Nat)
    (r : List Nat) (i : Nat) (rest : List (List Nat))
    (hlen : r.length ≤ NAME_LEN_MAX) (h10 : 10 ∉ r) :
    (∃ s1 s2,
      read_step ⟨namebuf, replybuf, answer,
          ⟨[], (r ++ [10]).take i :: (r ++ [10]).drop i :: rest⟩, ⟨[], 0⟩⟩ = Sum.inr s1 ∧
      read_step ⟨namebuf, replybuf, answer, ⟨[], (r ++ [10]) :: rest⟩, ⟨[], 0⟩⟩ = Sum.inr s2 ∧
      s1.namebuf = s2.namebuf ∧
      s1.namebuf = r ++ 0 :: 0 :: namebuf.drop (r.length + 2) ∧
      unread s1.f = unread s2.f ∧ unread s1.f = unread_pending rest) ∧
    ((body fuel w ⟨namebuf, replybuf, answer,
          ⟨[], (r ++ [10]).take i :: (r ++ [10]).drop i :: rest⟩, ⟨[], 0⟩⟩).map
        (fun p => (p.1, p.2.c))
      = (body fuel w ⟨namebuf, replybuf, answer, ⟨[], (r ++ [10]) :: rest⟩, ⟨[], 0⟩⟩).map
        (fun p => (p.1, p.2.c))) ∧
    ((do_client fuel w namebuf replybuf answer
          ⟨[], (r ++ [10]).take i :: (r ++ [10]).drop i :: rest⟩).map view
      = (do_client fuel w namebuf replybuf answer ⟨[], (r ++ [10]) :: rest⟩).map view) ∧
    (0 ∉ r → r ∉ directives → AllOk w →
      ∃ s1 s2,
        body fuel w ⟨namebuf, replybuf, answer,
          ⟨[], (r ++ [10]).take i :: (r ++ [10]).drop i :: rest⟩, ⟨[], 0⟩⟩ = some (none, s1) ∧
        body fuel w ⟨namebuf, replybuf, answer, ⟨[], (r ++ [10]) :: rest⟩, ⟨[], 0⟩⟩
          = some (none, s2) ∧
        s1.c = ⟨spec_reply r, 1⟩ ∧ s2.c = ⟨spec_reply r, 1⟩) ∧
    ((do_client 2 w_all (List.replicate 31 0) (List.replicate 12 0) 0
        ⟨[], [lit "Prof. Shriram K", lit "rishnamurthi I\n"]⟩).map (fun p => (p.1, p.2.c))
      = some (Exit.eof, ⟨lit "none\n", 1⟩)) ∧
    (lit "Prof. Shriram K" ++ lit "rishnamurthi I\n").length = NAME_LEN_MAX + 1 := by
  have hu := unread_split (r ++ [10]) i rest
  have hsame : SameInput
      ⟨namebuf, replybuf, answer, ⟨[], (r ++ [10]).take i :: (r ++ [10]).drop i :: rest⟩,
        ⟨[], 0⟩⟩
      ⟨namebuf, replybuf, answer, ⟨[], (r ++ [10]) :: rest⟩, ⟨[], 0⟩⟩ :=
    ⟨rfl, rfl, rfl, rfl, hu⟩
  have hw : unread (⟨[], (r ++ [10]) :: rest⟩ : FILE) = r ++ 10 :: unread_pending rest := by
    simp [unread, unread_pending]
  have hs : unread (⟨[], (r ++ [10]).take i :: (r ++ [10]).drop i :: rest⟩ : FILE)
      = r ++ 10 :: unread_pending rest := by rw [hu]; exact hw
  refine ⟨?_, ?_, loop_same_input fuel w _ _ hsame, ?_, by decide, by decide⟩
  rotate_left 2
  · intro h0 hd hok
    have hr : Ordinary r := ⟨hlen, h10, h0, hd⟩
    obtain ⟨s1, hb1, -, -, hc1⟩ := body_ordinary fuel w
      ⟨namebuf, replybuf, answer, ⟨[], (r ++ [10]).take i :: (r ++ [10]).drop i :: rest⟩,
        ⟨[], 0⟩⟩ r _ hr hs
    obtain ⟨s2, hb2, -, -, hc2⟩ := body_ordinary fuel w
      ⟨namebuf, replybuf, answer, ⟨[], (r ++ [10]) :: rest⟩, ⟨[], 0⟩⟩ r _ hr hw
    obtain ⟨hne, htake⟩ := write_all_ok w hok 0 (spec_reply r)
    simp only [if_neg hne, htake, List.nil_append, Nat.zero_add] at hb1 hb2 hc1 hc2
    exact ⟨s1, s2, hb1, hb2, hc1, hc2⟩
  · obtain ⟨f1, hu1, h1⟩ := read_step_line
      ⟨namebuf, replybuf, answer, ⟨[], (r ++ [10]).take i :: (r ++ [10]).drop i :: rest⟩,
        ⟨[], 0⟩⟩ r (unread_pending rest) h10 hlen (by rw [hu]; exact hw)
    obtain ⟨f2, hu2, h2⟩ := read_step_line
      ⟨namebuf, replybuf, answer, ⟨[], (r ++ [10]) :: rest⟩, ⟨[], 0⟩⟩
      r (unread_pending rest) h10 hlen hw
    exact ⟨_, _, h1, h2, rfl, rfl, by rw [hu1, hu2], hu1⟩
  · rcases body_same_input fuel w _ _ hsame with ⟨h1, h2⟩ | ⟨x, a', b', h1, h2, hs⟩
    · rw [h1, h2]
    · rw [h1, h2]
      simp only [Option.map_some', hs.2.2.2.1]

/-- An instance of C9 on concrete input. -/
theorem split_delivery_witness :
    (lit "Ada Lovelace").length ≤ NAME_LEN_MAX ∧ 10 ∉ lit "Ada Lovelace" ∧
    (do_client 2 w_all [] [] 0
        ⟨[], (lit "Ada Lovelace" ++ [10]).take 5 :: (lit "Ada Lovelace" ++ [10]).drop 5 :: []⟩).map
        view
      = (do_client 2 w_all [] [] 0 ⟨[], (lit "Ada Lovelace" ++ [10]) :: []⟩).map view ∧
    (do_client 2 w_all [] [] 0
        ⟨[], (lit "Ada Lovelace" ++ [10]).take 5 :: (lit "Ada Lovelace" ++ [10]).drop 5 :: []⟩).map
        (fun p => (p.1, p.2.namebuf, p.2.c))
      = some (Exit.eof, lit "Ada Lovelace" ++ [0, 0], ⟨lit "64265\n", 1⟩) :=
  ⟨by decide, by decide,
    (split_delivery 2 w_all [] [] 0 (lit "Ada Lovelace") 5 [] (by decide) (by decide)).2.2.1,
    by decide⟩

/-- The boundary of the failure of C5.  When the first `MAX_QUERY` bytes of
`namebuf` hold no newline on entry, a last line cut off by end of stream is
never dispatched: after the replies to the complete requests the loop is left
at "bad client" with no further `write` call. -/
theorem tail_not_dispatched_clean (fuel : Nat) (w : WriteEnv) (namebuf replybuf : List Nat)
    (answer : Nat) (f : FILE) (rs : List (List Nat)) (t : List Nat)
    (hrs : ∀ r ∈ rs, Ordinary r) (hw : AllOk w)
    (hclean : 10 ∉ namebuf.take MAX_QUERY)
    (ht : t ≠ []) (hlen : t.length < NAME_LEN_MAX + 1) (h10 : 10 ∉ t)
    (hf : unread f = wire rs ++ t) (hfuel : rs.length < fuel) :
    ∃ s', do_client fuel w namebuf replybuf answer f = some (Exit.no_newline, s') ∧
      s'.c.out = replies rs ∧ s'.c.calls = rs.length ∧ unread s'.f = [] := by
  obtain ⟨k, hk⟩ : ∃ k, fuel = rs.length + (k + 1) := ⟨fuel - rs.length - 1, by omega⟩
  obtain ⟨s1, hu, hc, hl, hcl⟩ := loop_requests w hw rs hrs t (k + 1)
    ⟨namebuf, replybuf, answer, f, ⟨[], 0⟩⟩ hf
  have hc1 := hcl hclean
  obtain ⟨f', hu', hfg⟩ := read_step_tail s1 t h10 ht hlen hu
  have hx : 10 ∉ t ++ [0] := by
    simp only [List.mem_append, List.mem_singleton, not_or]
    exact ⟨h10, by decide⟩
  have hm : memchr (t ++ 0 :: s1.namebuf.drop (t.length + 1)) 10 MAX_QUERY = none := by
    apply memchr_none
    have := clean_store (t ++ [0]) s1.namebuf MAX_QUERY hx hc1
    simpa using this
  refine ⟨{ s1 with namebuf := t ++ 0 :: s1.namebuf.drop (t.length + 1), f := f' },
    ?_, ?_, ?_, hu'⟩
  · rw [do_client, hk, hl]
    simp only [loop, body, read_step, hfg, hm]
  · show s1.c.out = replies rs
    rw [hc]; simp
  · show s1.c.calls = rs.length
    rw [hc]; simp

end A4
